import Mathlib

set_option maxHeartbeats 1000000

/-!
Shallow embedding of the haplotype-thread extraction core of
`src/subcommand/index_main.cpp` (the `--vcf-phasing` path of `vg index`).

An oriented node visit (`gbwt::node_type`) is a node id plus an orientation
bit.  The xg graph, the reference `PathIndex` and the alt-path table are
read-only inputs.  The three thread sinks (GBWT builder, binary stream,
in-memory gPBWT batch) all receive the same `(name, visit sequence)` pairs
on `finish_phase`, so the model records emissions in one list; each
emission also carries the phase number that produced it, as ghost
instrumentation (the C++ sinks do not receive the phase number).
-/

/-- An oriented node visit (`gbwt::node_type`): node id and orientation. -/
structure GNode where
  id : Nat
  rev : Bool
deriving DecidableEq, Repr

/-- The xg graph as consulted by the thread-extraction code: the edge
oracle over oriented visits (`index.has_edge(xg::make_edge(...))`), the
incident edge lists on the two sides of a node (`edges_on_start` /
`edges_on_end`, each edge given by its `from`/`to` node ids), and node
lengths (`index.node_length`; the `NodeLengthBuffer` cache is semantically
the identity memoisation of this function). -/
structure Graph where
  hasEdge : GNode → GNode → Bool
  edgesOnStart : Nat → List (Nat × Nat)
  edgesOnEnd : Nat → List (Nat × Nat)
  nodeLength : Nat → Nat

/-- One step of the reference path: the oriented visit
(`node_side_to_gbwt(it->second)`) and the node's length. -/
structure RefEntry where
  node : GNode
  len : Nat
deriving DecidableEq, Repr

/-- Modelled from the spec: the `PathIndex` over one reference contig
(`../path_index.hpp` is not part of this repository's sources).  `entries`
is the ordered node-visit sequence of the path; `byId` maps a node id to
its start coordinate on the path (`by_id.at(id).first`), `none` when the
node is not on the path (`by_id.count(id) == 0`). -/
structure PathIndexT where
  entries : List RefEntry
  byId : Nat → Option Nat

/-- Modelled from the spec: `path_index.find_position(pos)` returns an
iterator at the node-visit whose reference interval contains `pos`; here,
the index of that entry in `entries` (`entries.length`, i.e. `end()`, when
`pos` is past the end of the path). -/
def findPositionAux : List RefEntry → Nat → Nat → Nat
  | [], _, acc => acc
  | e :: rest, pos, acc =>
    if pos < e.len then acc else findPositionAux rest (pos - e.len) (acc + 1)

/-- Index of the path entry containing reference coordinate `pos`. -/
def findPosition (p : PathIndexT) (pos : Nat) : Nat :=
  findPositionAux p.entries pos 0

/-- Thread naming, `_thread_{sample}_{contig}_{slot}_{count}`, as built by
the `stringstream` at the three emission sites. -/
def mkThreadName (sample contig : String) (slot count : Nat) : String :=
  "_thread_" ++ sample ++ "_" ++ contig ++ "_" ++ toString slot ++ "_" ++ toString count

/-- One fragment handed to the sink: its name and visit sequence, plus the
emitting phase number (ghost instrumentation, see the file header). -/
structure Emit where
  phase : Nat
  name : String
  thread : List GNode
deriving DecidableEq, Repr

/-- The per-batch mutable state captured by the closures in
`main_index`: `threads` is `active_phase_threads` (indexed by
`phase_number - first_phase`), `saved` is `saved_phase_paths`,
`activePhases` and `diploidRegion` are indexed by
`sample_number - batch_start`, `nvStarts` is `nonvariant_starts`.
`emitted` is the sink, `warnings` the diagnostic stream (`cerr`). -/
structure BState where
  threads : Nat → List GNode
  saved : Nat → Nat
  activePhases : Nat → Nat
  diploidRegion : Nat → Bool
  nvStarts : Nat → Nat
  emitted : List Emit
  warnings : List String

/-- Pointwise update of an index-addressed store. -/
def updFn {α : Type} (f : Nat → α) (i : Nat) (v : α) : Nat → α :=
  fun j => if j = i then v else f j

/-- Fresh per-batch state: empty buffers, zero counters, zero cursors,
`active_phases` all 0, `diploid_region` all `true` (lines 572-583 and the
batch-end reset at lines 1023-1026). -/
def initState : BState where
  threads := fun _ => []
  saved := fun _ => 0
  activePhases := fun _ => 0
  diploidRegion := fun _ => true
  nvStarts := fun _ => 0
  emitted := []
  warnings := []

def setThread (s : BState) (i : Nat) (v : List GNode) : BState :=
  { s with threads := updFn s.threads i v }

def setNv (s : BState) (i v : Nat) : BState :=
  { s with nvStarts := updFn s.nvStarts i v }

def setActive (s : BState) (i v : Nat) : BState :=
  { s with activePhases := updFn s.activePhases i v }

def setDiploid (s : BState) (i : Nat) (v : Bool) : BState :=
  { s with diploidRegion := updFn s.diploidRegion i v }

/-- The read-only context of one batch on one contig: the graph, the
reference path index, the alt-path table (`alt_paths`, keyed by
`_alt_<var>_<allele>` names, each path reduced to its oriented visit
sequence via `mapping_to_gbwt`), sample names, the contig's graph path
name and length, the `--discard-overlaps` flag, and the batch bounds
(`batch_start`, `batch_limit`, `first_phase = 2 * batch_start`). -/
structure Ctx where
  graph : Graph
  pathIndex : PathIndexT
  altPaths : String → Option (List GNode)
  sampleName : Nat → String
  pathName : String
  pathLength : Nat
  discardOverlaps : Bool
  batchStart : Nat
  batchLimit : Nat
  firstPhase : Nat

/-- One variant record as `handle_variant` receives it: its id
(`make_variant_id(variant)`), its 0-based start (`var.position -= 1` was
already applied by the caller), and the per-sample genotype strings
(`variant.getGenotype(sample_name)`, indexed here by sample number). -/
structure VariantT where
  varName : String
  position : Nat
  genotypes : Nat → List Char

/-- `finish_phase(phase_number, name)` (lines 586-622): when the buffer is
non-empty, hand it to the sink under `name`, clear it and bump the
fragment counter; otherwise do nothing. -/
def finish_phase (s : BState) (pn : Nat) (name : String) (fp : Nat) : BState :=
  let i := pn - fp
  let toSave := s.threads i
  if toSave.length > 0 then
    { s with
      emitted := s.emitted ++ [⟨pn, name, toSave⟩],
      threads := updFn s.threads i [],
      saved := updFn s.saved i (s.saved i + 1) }
  else s

/-- `append_node(phase_number, next)` (lines 627-655): if the buffer is
non-empty and the graph lacks the edge from its last visit to `next`,
close and emit the buffer (split event) under the split-site name, then
push `next` onto the (possibly fresh) buffer. -/
def append_node (ctx : Ctx) (s : BState) (pn : Nat) (next : GNode) : BState :=
  let i := pn - ctx.firstPhase
  let s1 :=
    match (s.threads i).getLast? with
    | none => s
    | some previous =>
      if ctx.graph.hasEdge previous next = false then
        finish_phase s pn
          (mkThreadName (ctx.sampleName (pn / 2)) ctx.pathName (pn % 2) (s.saved i))
          ctx.firstPhase
      else s
  setThread s1 i (s1.threads i ++ [next])

/-- `append_node_nocheck(phase_number, next)` (lines 659-662): push
without the edge check. -/
def append_node_nocheck (ctx : Ctx) (s : BState) (pn : Nat) (next : GNode) : BState :=
  let i := pn - ctx.firstPhase
  setThread s i (s.threads i ++ [next])

/-- The unchecked tail of the reference walk (the `while` loop of
`append_reference_mappings_until`, lines 687-691): starting at `refPos`
with the iterator on `entries`, the visits taken while `refPos < endPos`
and the final `ref_pos`. -/
def scan_reference : List RefEntry → Nat → Nat → List GNode × Nat
  | [], _, refPos => ([], refPos)
  | e :: rest, endPos, refPos =>
    if refPos < endPos then
      let (ns, fin) := scan_reference rest endPos (refPos + e.len)
      (e.node :: ns, fin)
    else ([], refPos)

/-- The whole reference span walked by one
`append_reference_mappings_until(phase, endPos)` call from cursor
`refPos`: the appended visit sequence (first one checked, rest unchecked)
and the final cursor. -/
def reference_span (pidx : PathIndexT) (refPos endPos : Nat) : List GNode × Nat :=
  match pidx.entries.drop (findPosition pidx refPos) with
  | [] => ([], refPos)
  | e :: rest =>
    if refPos < endPos then
      let (ns, fin) := scan_reference rest endPos (refPos + e.len)
      (e.node :: ns, fin)
    else ([], refPos)

/-- `append_reference_mappings_until(phase_number, end)` (lines 667-693):
from the phase's `nonvariant_starts` cursor, append the first intervening
reference visit with the edge check, the rest unchecked, and store the
final cursor. -/
def append_reference_mappings_until (ctx : Ctx) (s : BState) (pn : Nat) (endPos : Nat) : BState :=
  let i := pn - ctx.firstPhase
  let refPos := s.nvStarts i
  match ctx.pathIndex.entries.drop (findPosition ctx.pathIndex refPos) with
  | [] => setNv s i refPos
  | e :: rest =>
    if refPos < endPos then
      let s1 := append_node ctx s pn e.node
      let (ns, fin) := scan_reference rest endPos (refPos + e.len)
      let s2 := ns.foldl (fun st n => append_node_nocheck ctx st pn n) s1
      setNv s2 i fin
    else setNv s i refPos

/-- Decimal value of a digit list (used by the `std::stoi` model). -/
def natOfDigits (l : List Char) : Nat :=
  l.foldl (fun a c => a * 10 + (c.toNat - 48)) 0

/-- Models `std::stoi` on the allele tokens of a genotype: an optional
minus sign followed by decimal digits.  (Where C++ `stoi` would throw --
no leading digits at all -- this model returns 0; no claim concerns such
malformed tokens.) -/
def stoiModel (s : List Char) : Int :=
  match s with
  | '-' :: rest => - Int.ofNat (natOfDigits (rest.takeWhile (fun c => c.isDigit)))
  | _ => Int.ofNat (natOfDigits (s.takeWhile (fun c => c.isDigit)))

/-- `std::string::find(c)` on a genotype string. -/
def find_char_idx (c : Char) : List Char → Option Nat
  | [] => none
  | x :: xs => if x = c then some 0 else (find_char_idx c xs).map (· + 1)

/-- One parsed allele token: `"."` stays at the missing sentinel `-1`
(line 751-759), anything else goes through `stoi`. -/
def parse_allele (tok : List Char) : Int :=
  if tok = ['.'] then -1 else stoiModel tok

/-- Result of the genotype classification at lines 734-761:
`alt_index[0]`, `alt_index[1]` (missing = `-1`), `new_active_phases`,
`is_diploid`. -/
structure ParsedGT where
  alt0 : Int
  alt1 : Int
  newActive : Nat
  isDiploid : Bool
deriving DecidableEq, Repr

/-- The genotype classification (lines 734-761).  `curDiploid` is the
sample's current `diploid_region` flag, which `is_diploid` starts from. -/
def parse_genotype (gt : List Char) (curDiploid : Bool) : ParsedGT :=
  if gt = [] then ⟨-1, -1, 0, curDiploid⟩
  else
    match find_char_idx '|' gt with
    | none =>
      match find_char_idx '/' gt with
      | none => ⟨parse_allele gt, -1, 1, false⟩
      | some _ => ⟨-1, -1, 0, curDiploid⟩
    | some limit =>
      if 0 < limit ∧ limit + 1 < gt.length then
        ⟨parse_allele (gt.take limit), parse_allele (gt.drop (limit + 1)), 2, true⟩
      else ⟨-1, -1, 0, curDiploid⟩

/-- Contribution of one incident edge to the alt-branch `first_ref_base`
computation (lines 874-895): the other endpoint, skipping self loops and
nodes off the reference path, contributes its reference start plus its
length. -/
def altContrib (g : Graph) (pidx : PathIndexT) (aid : Nat) (e : Nat × Nat) : Option Nat :=
  let otherId := if e.1 = aid then e.2 else e.1
  if otherId = aid then none
  else
    match pidx.byId otherId with
    | none => none
    | some start => some (start + g.nodeLength otherId)

/-- `first_ref_base` determination (lines 839-904): from the ref-allele
path's first node when that path exists and is non-empty; otherwise the
maximum edge contribution on the alt path's first node's incoming side;
`none` when both paths are missing or empty (the `continue` case). -/
def compute_first_ref_base (g : Graph) (pidx : PathIndexT)
    (refP altP : Option (List GNode)) : Option Nat :=
  match refP with
  | some (m :: _) => some ((pidx.byId m.id).getD 0)
  | _ =>
    match altP with
    | some (a :: _) =>
      let leftEdges := if a.rev then g.edgesOnEnd a.id else g.edgesOnStart a.id
      some (leftEdges.foldl
        (fun acc e =>
          match altContrib g pidx a.id e with
          | none => acc
          | some v => max acc v) 0)
    | _ => none

/-- Total length of the ref-allele path's nodes (lines 909-917). -/
def ref_allele_length (g : Graph) (p : List GNode) : Nat :=
  (p.map (fun m => g.nodeLength m.id)).sum

/-- `last_ref_base` (lines 909-917): `first_ref_base` plus the ref-allele
path's node lengths (0 contribution when the ref path is absent). -/
def last_ref_base_of (g : Graph) (refP : Option (List GNode)) (frb : Nat) : Nat :=
  frb + (match refP with | some p => ref_allele_length g p | none => 0)

/-- The diagnostic written when both the ref and the alt path are
missing or empty (lines 900-902, abbreviated to the variant id). -/
def warnMissingAlt (varName : String) : String :=
  "warning:[vg index] Alt and ref paths for " ++ varName ++ " missing/empty!"

/-- Processing of one called alt allele for one phase (lines 826-938):
find the ref- and alt-allele paths, compute `first_ref_base` (skip with a
diagnostic when impossible) and `last_ref_base`; unless an overlap is
detected while `-o` discarding is on, extend with reference up to
`first_ref_base`, append the alt path's visits, and set the cursor to
`last_ref_base`. -/
def handle_alt_allele (ctx : Ctx) (s : BState) (sampleNumber po : Nat)
    (varName : String) (altIdx : Int) : BState :=
  let refP := ctx.altPaths ("_alt_" ++ varName ++ "_0")
  let altP := ctx.altPaths ("_alt_" ++ varName ++ "_" ++ toString altIdx)
  match compute_first_ref_base ctx.graph ctx.pathIndex refP altP with
  | none => { s with warnings := s.warnings ++ [warnMissingAlt varName] }
  | some firstRefBase =>
    let lastRefBase := last_ref_base_of ctx.graph refP firstRefBase
    let pn := sampleNumber * 2 + po
    let i := pn - ctx.firstPhase
    if s.nvStarts i ≤ firstRefBase ∨ ctx.discardOverlaps = false then
      let s1 := append_reference_mappings_until ctx s pn firstRefBase
      let s2 := (altP.getD []).foldl (fun st n => append_node ctx st pn n) s1
      setNv s2 i lastRefBase
    else s

/-- One iteration of the forced-close loop of `handle_variant` (lines
769-796): remember the cursor, extend the phase with reference up to the
variant's start, emit it under the transition-site name (which reads
phase 0's `saved_phase_paths` counter for both offsets, as line 783
does), and roll the cursor back. -/
def close_phase_step (ctx : Ctx) (var : VariantT) (sampleNumber : Nat)
    (st : BState) (po : Nat) : BState :=
  let phaseId := 2 * sampleNumber - ctx.firstPhase
  let cursor := st.nvStarts (phaseId + po)
  let st1 := append_reference_mappings_until ctx st (sampleNumber * 2 + po) var.position
  let name := mkThreadName (ctx.sampleName sampleNumber) ctx.pathName po
    (st1.saved (sampleNumber * 2 - ctx.firstPhase))
  let st2 := finish_phase st1 (sampleNumber * 2 + po) name ctx.firstPhase
  setNv st2 (phaseId + po) cursor

/-- The forced-close block of `handle_variant` (lines 763-805): run the
close step over every active phase, then, on a ploidy change, align both
of the sample's cursors to their maximum. -/
def close_active_phases (ctx : Ctx) (var : VariantT) (s : BState)
    (sampleNumber : Nat) (isDiploid : Bool) : BState :=
  let si := sampleNumber - ctx.batchStart
  let phaseId := 2 * sampleNumber - ctx.firstPhase
  let s1 := (List.range (s.activePhases si)).foldl
    (close_phase_step ctx var sampleNumber) s
  if isDiploid ≠ s1.diploidRegion si then
    let maxPos := max (s1.nvStarts phaseId) (s1.nvStarts (phaseId + 1))
    setNv (setNv s1 phaseId maxPos) (phaseId + 1) maxPos
  else s1

/-- One iteration of the allele loop of `handle_variant` (lines 809-939):
a missing call (`-1`) is skipped, allele 0 (reference) does nothing here,
and a non-zero alt goes through `handle_alt_allele`. -/
def phase_alt_step (ctx : Ctx) (var : VariantT) (sampleNumber : Nat) (g : ParsedGT)
    (st : BState) (po : Nat) : BState :=
  let ai := if po = 0 then g.alt0 else g.alt1
  if ai = -1 then st
  else if ai ≠ 0 then handle_alt_allele ctx st sampleNumber po var.varName ai
  else st

/-- The per-sample body of `handle_variant` (lines 724-942): classify the
genotype, force-close on a ploidy change or deactivation, update the
activity flags, then run the allele loop over the active phases. -/
def process_sample (ctx : Ctx) (var : VariantT) (s : BState) (sampleNumber : Nat) : BState :=
  let si := sampleNumber - ctx.batchStart
  let g := parse_genotype (var.genotypes sampleNumber) (s.diploidRegion si)
  let s1 :=
    if g.isDiploid ≠ s.diploidRegion si ∨ (g.newActive = 0 ∧ 0 < s.activePhases si) then
      close_active_phases ctx var s sampleNumber g.isDiploid
    else s
  let s2 := setDiploid (setActive s1 si g.newActive) si g.isDiploid
  (List.range g.newActive).foldl (phase_alt_step ctx var sampleNumber g) s2

/-- `handle_variant(variant)` (lines 696-943): the per-sample step over
the batch's sample range. -/
def handle_variant (ctx : Ctx) (var : VariantT) (s : BState) : BState :=
  (List.range' ctx.batchStart (ctx.batchLimit - ctx.batchStart)).foldl
    (process_sample ctx var) s

/-- The batch-end finishing block (lines 991-1008): set each sample's
activity from its ploidy region, extend every phase to the contig's end
and emit it under the batch-end name. -/
def finish_batch (ctx : Ctx) (s : BState) : BState :=
  (List.range' ctx.batchStart (ctx.batchLimit - ctx.batchStart)).foldl
    (fun st sampleNumber =>
      let si := sampleNumber - ctx.batchStart
      let st0 := setActive st si (if st.diploidRegion si then 2 else 1)
      (List.range (st0.activePhases si)).foldl
        (fun st2 po =>
          let st3 := append_reference_mappings_until ctx st2 (sampleNumber * 2 + po) ctx.pathLength
          let name := mkThreadName (ctx.sampleName sampleNumber) ctx.pathName po
            (st3.saved (sampleNumber * 2 + po - ctx.firstPhase))
          finish_phase st3 (sampleNumber * 2 + po) name ctx.firstPhase) st0) s

/-- One batch of one contig (the `while (batch_start < ...)` body, lines
946-1027): from fresh per-batch state, run `handle_variant` over the
contig's variant records (the caller has already dropped non-DNA records
and records of other contigs, and converted positions to 0-based), then
run the finishing block only when at least one variant was processed. -/
def process_batch (ctx : Ctx) (vars : List VariantT) : BState :=
  let s := vars.foldl (fun st v => handle_variant ctx v st) initState
  if vars.length > 0 then finish_batch ctx s else s

/-- The batch loop over the sample range (lines 568-569 and 1019-1022):
batches `[start, min(start+sib, numSamples))` until the range is
exhausted.  The `fuel` parameter only bounds the recursion; `fuel =
numSamples` suffices whenever `sib ≥ 1`, because every batch advances
`start` by at least one sample. -/
def run_sample_batches (env : Ctx) (vars : List VariantT) (numSamples sib : Nat) :
    Nat → Nat → List Emit
  | 0, _ => []
  | fuel + 1, start =>
    if start < numSamples then
      let limit := min (start + sib) numSamples
      let ctx := { env with batchStart := start, batchLimit := limit, firstPhase := 2 * start }
      (process_batch ctx vars).emitted ++ run_sample_batches env vars numSamples sib fuel limit
    else []

/-- Models `std::stoul` on the `-B` argument (line 224) for arguments
whose magnitude fits in 64 bits: the numeral's value, negated into the
64-bit `size_t` (i.e. modulo 2^64) when a minus sign is present, exactly
as `strtoull` does.  (For magnitudes of 2^64 or more C++ `stoul` throws
`std::out_of_range` instead; such arguments are outside this model and
outside every claim settled against it.) -/
def stoulModel (v : Int) : Nat :=
  (v % (2 ^ 64 : Int)).toNat

/-- The phasing pipeline of `main_index` reduced to the claims' scope
(one contig, whose per-path setup is always reached): parse the batch
size (line 224); reject it when a VCF is given and it is zero (lines
414-417), before any variant processing; then perform the per-path batch
setup of lines 568-583, which constructs vectors of
`phases_in_batch = 2 * samples_in_batch` (wrapping in `size_t`, line
569) and of `samples_in_batch` elements -- when either count exceeds the
allocator's capacity (`maxAlloc`, abstracting `vector::max_size()` and
available memory) the construction throws and the uncaught exception
terminates the program before any variant is read (the same sizes are
reallocated at every batch end, lines 1023-1026, so one up-front guard
is equivalent); otherwise run the batches over all samples. -/
def run_index_main (vcfName : String) (batchArg : Int) (maxAlloc : Nat) (env : Ctx)
    (vars : List VariantT) (numSamples : Nat) : Except String (List Emit) :=
  let sib := stoulModel batchArg
  if vcfName = "" then .ok []
  else if sib < 1 then .error "error:[vg index] Batch size must be positive and nonzero"
  else if maxAlloc < 2 * sib % 2 ^ 64 ∨ maxAlloc < sib then
    .error "terminate: std::length_error in per-batch vector allocation"
  else .ok (run_sample_batches env vars numSamples sib numSamples 0)

/-- A visit sequence is a connected walk: every consecutive pair is
joined by an edge the graph knows. -/
def Chained (g : Graph) (l : List GNode) : Prop :=
  List.Chain' (fun a b => g.hasEdge a b = true) l

/-- Well-formedness of the embedded reference path: consecutive path
visits are joined by graph edges (true by construction for a path stored
in the xg; the source assumes it when appending unchecked). -/
def WFPath (ctx : Ctx) : Prop :=
  List.Chain' (fun a b => ctx.graph.hasEdge a.node b.node = true) ctx.pathIndex.entries

/-- Everything ever appended for one phase, in order: the fragments the
phase emitted, concatenated, followed by its current buffer. -/
def phase_trace (fp : Nat) (s : BState) (pn : Nat) : List GNode :=
  ((s.emitted.filter (fun e => e.phase = pn)).map Emit.thread).flatten ++ s.threads (pn - fp)

/-! ## Basic lemmas about the state operations -/

theorem updFn_self {α : Type} (f : Nat → α) (i : Nat) (v : α) : updFn f i v i = v := by
  simp [updFn]

theorem updFn_other {α : Type} (f : Nat → α) (i j : Nat) (v : α) (h : j ≠ i) :
    updFn f i v j = f j := by
  simp [updFn, h]

theorem foldl_pres {α β : Type} {P : β → Prop} {f : β → α → β} :
    ∀ (l : List α) (s : β), P s → (∀ st a, a ∈ l → P st → P (f st a)) → P (l.foldl f s)
  | [], _, h, _ => h
  | a :: l, s, h, hstep =>
    foldl_pres l (f s a) (hstep s a (List.mem_cons_self a l) h)
      (fun st b hb hP => hstep st b (List.mem_cons_of_mem a hb) hP)

theorem finish_phase_threads_self (s : BState) (pn : Nat) (name : String) (fp : Nat) :
    (finish_phase s pn name fp).threads (pn - fp) = [] := by
  unfold finish_phase
  dsimp only
  split
  · simp [updFn]
  · next h =>
    exact List.eq_nil_of_length_eq_zero (Nat.eq_zero_of_not_pos h)

theorem finish_phase_threads_other (s : BState) (pn : Nat) (name : String) (fp j : Nat)
    (h : j ≠ pn - fp) : (finish_phase s pn name fp).threads j = s.threads j := by
  unfold finish_phase
  dsimp only
  split
  · simp [updFn, h]
  · rfl

theorem finish_phase_saved_other (s : BState) (pn : Nat) (name : String) (fp j : Nat)
    (h : j ≠ pn - fp) : (finish_phase s pn name fp).saved j = s.saved j := by
  unfold finish_phase
  dsimp only
  split
  · simp [updFn, h]
  · rfl

theorem finish_phase_nv (s : BState) (pn : Nat) (name : String) (fp : Nat) :
    (finish_phase s pn name fp).nvStarts = s.nvStarts := by
  unfold finish_phase
  dsimp only
  split <;> rfl

theorem finish_phase_active (s : BState) (pn : Nat) (name : String) (fp : Nat) :
    (finish_phase s pn name fp).activePhases = s.activePhases := by
  unfold finish_phase
  dsimp only
  split <;> rfl

theorem finish_phase_diploid (s : BState) (pn : Nat) (name : String) (fp : Nat) :
    (finish_phase s pn name fp).diploidRegion = s.diploidRegion := by
  unfold finish_phase
  dsimp only
  split <;> rfl

theorem finish_phase_warnings (s : BState) (pn : Nat) (name : String) (fp : Nat) :
    (finish_phase s pn name fp).warnings = s.warnings := by
  unfold finish_phase
  dsimp only
  split <;> rfl

theorem finish_phase_emitted (s : BState) (pn : Nat) (name : String) (fp : Nat) :
    ∃ t, (finish_phase s pn name fp).emitted = s.emitted ++ t ∧ ∀ e ∈ t, e.phase = pn := by
  unfold finish_phase
  dsimp only
  split
  · exact ⟨[⟨pn, name, s.threads (pn - fp)⟩], rfl, by simp⟩
  · exact ⟨[], by simp, by simp⟩

theorem finish_phase_emitted_pos (s : BState) (pn : Nat) (name : String) (fp : Nat)
    (h : (s.threads (pn - fp)).length > 0) :
    (finish_phase s pn name fp).emitted = s.emitted ++ [⟨pn, name, s.threads (pn - fp)⟩] := by
  unfold finish_phase
  dsimp only
  rw [if_pos h]

theorem setThread_threads_self (s : BState) (i : Nat) (v : List GNode) :
    (setThread s i v).threads i = v :=
  updFn_self s.threads i v

theorem setThread_threads_other (s : BState) (i j : Nat) (v : List GNode) (h : j ≠ i) :
    (setThread s i v).threads j = s.threads j :=
  updFn_other s.threads i j v h

theorem append_node_no_split (ctx : Ctx) (s : BState) (pn : Nat) (next : GNode)
    (h : ∀ prev, (s.threads (pn - ctx.firstPhase)).getLast? = some prev →
      ctx.graph.hasEdge prev next = true) :
    append_node ctx s pn next
      = setThread s (pn - ctx.firstPhase) (s.threads (pn - ctx.firstPhase) ++ [next]) := by
  unfold append_node
  dsimp only
  cases hL : (s.threads (pn - ctx.firstPhase)).getLast? with
  | none => rfl
  | some prev =>
    have he := h prev hL
    simp [he]

theorem append_node_split (ctx : Ctx) (s : BState) (pn : Nat) (next : GNode) (prev : GNode)
    (hL : (s.threads (pn - ctx.firstPhase)).getLast? = some prev)
    (hE : ctx.graph.hasEdge prev next = false) :
    append_node ctx s pn next
      = setThread
          (finish_phase s pn
            (mkThreadName (ctx.sampleName (pn / 2)) ctx.pathName (pn % 2)
              (s.saved (pn - ctx.firstPhase)))
            ctx.firstPhase)
          (pn - ctx.firstPhase) [next] := by
  unfold append_node
  dsimp only
  rw [hL]
  simp only [hE, if_true, finish_phase_threads_self, List.nil_append]

/-! ## Claim C2 -/

/-- Claim C2: for every phase and node, if the checked append is applied
while the phase's buffer is non-empty and the graph lacks the edge from
the buffer's last visit to the new node, the buffer is closed and emitted
as a fragment and a new buffer is started whose first (and only) element
is the new node; if the edge exists or the buffer is empty, the node is
appended to the existing buffer and nothing is emitted. -/
theorem claim_C2_append_node (ctx : Ctx) (s : BState) (pn : Nat) (next : GNode) :
    (∀ prev, (s.threads (pn - ctx.firstPhase)).getLast? = some prev →
      ctx.graph.hasEdge prev next = false →
      (append_node ctx s pn next).threads (pn - ctx.firstPhase) = [next] ∧
      (append_node ctx s pn next).emitted = s.emitted ++
        [⟨pn, mkThreadName (ctx.sampleName (pn / 2)) ctx.pathName (pn % 2)
            (s.saved (pn - ctx.firstPhase)), s.threads (pn - ctx.firstPhase)⟩])
    ∧ ((∀ prev, (s.threads (pn - ctx.firstPhase)).getLast? = some prev →
        ctx.graph.hasEdge prev next = true) →
      (append_node ctx s pn next).threads (pn - ctx.firstPhase)
        = s.threads (pn - ctx.firstPhase) ++ [next] ∧
      (append_node ctx s pn next).emitted = s.emitted) := by
  constructor
  · intro prev hL hE
    rw [append_node_split ctx s pn next prev hL hE]
    have hpos : (s.threads (pn - ctx.firstPhase)).length > 0 := by
      cases hts : s.threads (pn - ctx.firstPhase) with
      | nil => rw [hts] at hL; simp at hL
      | cons a l => simp [hts]
    refine ⟨setThread_threads_self _ _ _, ?_⟩
    show (finish_phase s pn _ ctx.firstPhase).emitted = _
    rw [finish_phase_emitted_pos s pn _ ctx.firstPhase hpos]
  · intro h
    rw [append_node_no_split ctx s pn next h]
    exact ⟨setThread_threads_self _ _ _, rfl⟩

/-! Shared concrete fixtures for the witnesses. -/

/-- A tiny concrete graph: the only edges are 1→2 and 2→2 (any
orientations); node length 5 everywhere. -/
def fxGraph : Graph where
  hasEdge := fun a b => (a.id = 1 && b.id = 2) || (a.id = 2 && b.id = 2)
  edgesOnStart := fun n => if n = 7 then [(1, 7), (7, 7), (9, 7)] else []
  edgesOnEnd := fun _ => []
  nodeLength := fun _ => 5

/-- A two-node reference path, ids 1 and 2, covering `[0, 10)`. -/
def fxPidx : PathIndexT where
  entries := [⟨⟨1, false⟩, 5⟩, ⟨⟨2, false⟩, 5⟩]
  byId := fun n => if n = 1 then some 0 else if n = 2 then some 5 else none

/-- A one-sample, one-batch context over `fxGraph` and `fxPidx`. -/
def fxCtx : Ctx where
  graph := fxGraph
  pathIndex := fxPidx
  altPaths := fun nm =>
    if nm = "_alt_v1_0" then some [⟨2, false⟩]
    else if nm = "_alt_v1_1" then some [⟨7, false⟩]
    else none
  sampleName := fun _ => "S"
  pathName := "C"
  pathLength := 10
  discardOverlaps := false
  batchStart := 0
  batchLimit := 1
  firstPhase := 0

/-- A state whose phase-0 buffer is the single visit of node 1. -/
def fxState : BState :=
  { initState with threads := updFn initState.threads 0 [⟨1, false⟩] }

theorem claim_C2_witness :
    ((append_node fxCtx fxState 0 ⟨3, false⟩).threads 0 = [⟨3, false⟩] ∧
      (append_node fxCtx fxState 0 ⟨3, false⟩).emitted = fxState.emitted ++
        [⟨0, mkThreadName (fxCtx.sampleName 0) fxCtx.pathName 0 (fxState.saved 0),
          fxState.threads 0⟩])
    ∧ ((append_node fxCtx fxState 0 ⟨2, false⟩).threads 0
        = fxState.threads 0 ++ [⟨2, false⟩] ∧
      (append_node fxCtx fxState 0 ⟨2, false⟩).emitted = fxState.emitted) :=
  ⟨(claim_C2_append_node fxCtx fxState 0 ⟨3, false⟩).1 ⟨1, false⟩ (by decide) (by decide),
   (claim_C2_append_node fxCtx fxState 0 ⟨2, false⟩).2
     (by
       intro prev hp
       have : prev = ⟨1, false⟩ := by
         have hd : (fxState.threads (0 - fxCtx.firstPhase)).getLast? = some ⟨1, false⟩ := by decide
         rw [hd] at hp
         exact (Option.some_inj.mp hp).symm
       rw [this]
       decide)⟩

/-! ## Claim C7 -/

theorem find_char_idx_eq_none {c : Char} : ∀ {l : List Char},
    find_char_idx c l = none ↔ c ∉ l := by
  intro l
  induction l with
  | nil => simp [find_char_idx]
  | cons x xs ih =>
    by_cases hx : x = c
    · subst hx
      simp [find_char_idx]
    · simp only [find_char_idx, if_neg hx, Option.map_eq_none', ih, List.mem_cons]
      constructor
      · intro h hc
        rcases hc with hc | hc
        · exact hx hc.symm
        · exact h hc
      · intro h hc
        exact h (Or.inr hc)

/-- Claim C7: genotype classification.  Empty genotype: no active phase
and unchanged ploidy flag.  No separator at all: haploid, one active
phase (and a `"."` token is recorded missing).  Phased separator `'|'`
(first occurrence) with non-empty strings on both sides: diploid, two
active phases (and a `"."` token on either side is recorded missing for
its slot). -/
theorem claim_C7_parse_genotype (gt : List Char) (d : Bool) :
    (gt = [] → parse_genotype gt d = ⟨-1, -1, 0, d⟩)
    ∧ (gt ≠ [] → '|' ∉ gt → '/' ∉ gt →
        (parse_genotype gt d).newActive = 1 ∧ (parse_genotype gt d).isDiploid = false
        ∧ (gt = ['.'] → (parse_genotype gt d).alt0 = -1))
    ∧ (∀ limit, find_char_idx '|' gt = some limit → 0 < limit → limit + 1 < gt.length →
        (parse_genotype gt d).newActive = 2 ∧ (parse_genotype gt d).isDiploid = true
        ∧ (gt.take limit = ['.'] → (parse_genotype gt d).alt0 = -1)
        ∧ (gt.drop (limit + 1) = ['.'] → (parse_genotype gt d).alt1 = -1)) := by
  refine ⟨?_, ?_, ?_⟩
  · intro h
    subst h
    rfl
  · intro hne h1 h2
    unfold parse_genotype
    rw [if_neg hne, find_char_idx_eq_none.mpr h1, find_char_idx_eq_none.mpr h2]
    refine ⟨rfl, rfl, ?_⟩
    intro h
    subst h
    rfl
  · intro limit hfind hpos hlen
    have hne : gt ≠ [] := by
      intro h
      subst h
      simp [find_char_idx] at hfind
    unfold parse_genotype
    rw [if_neg hne, hfind]
    dsimp only
    rw [if_pos ⟨hpos, hlen⟩]
    refine ⟨rfl, rfl, ?_, ?_⟩
    · intro h
      simp [parse_allele, h]
    · intro h
      simp [parse_allele, h]

theorem claim_C7_witness :
    (parse_genotype [] true = ⟨-1, -1, 0, true⟩)
    ∧ ((parse_genotype ['.'] false).newActive = 1
        ∧ (parse_genotype ['.'] false).isDiploid = false
        ∧ (['.'] = ['.'] → (parse_genotype ['.'] false).alt0 = -1))
    ∧ ((parse_genotype ['0', '|', '.'] false).newActive = 2
        ∧ (parse_genotype ['0', '|', '.'] false).isDiploid = true
        ∧ (['0', '|', '.'].take 1 = ['.'] → (parse_genotype ['0', '|', '.'] false).alt0 = -1)
        ∧ (['0', '|', '.'].drop 2 = ['.'] → (parse_genotype ['0', '|', '.'] false).alt1 = -1)) :=
  ⟨(claim_C7_parse_genotype [] true).1 rfl,
   (claim_C7_parse_genotype ['.'] false).2.1 (by decide) (by decide) (by decide),
   (claim_C7_parse_genotype ['0', '|', '.'] false).2.2 1 (by decide) (by decide) (by decide)⟩

/-! ## Claim C6 -/

theorem le_foldl_max : ∀ (l : List Nat) (a : Nat), a ≤ l.foldl max a
  | [], a => le_refl a
  | x :: l, a => le_trans (Nat.le_max_left a x) (le_foldl_max l (max a x))

theorem foldl_max_le_of_mem : ∀ (l : List Nat) (a x : Nat), x ∈ l → x ≤ l.foldl max a
  | x' :: l, a, x, h => by
    rcases List.mem_cons.mp h with h | h
    · subst h
      exact le_trans (Nat.le_max_right a x) (le_foldl_max l _)
    · exact foldl_max_le_of_mem l _ x h

theorem foldl_max_cases : ∀ (l : List Nat) (a : Nat), l.foldl max a = a ∨ l.foldl max a ∈ l
  | [], _ => Or.inl rfl
  | x :: l, a => by
    have hc : List.foldl max a (x :: l) = List.foldl max (max a x) l := rfl
    rcases foldl_max_cases l (max a x) with h | h
    · rcases Nat.le_total a x with hax | hxa
      · rw [hc, h, Nat.max_eq_right hax]
        exact Or.inr (List.mem_cons_self x l)
      · rw [hc, h, Nat.max_eq_left hxa]
        exact Or.inl rfl
    · rw [hc]
      exact Or.inr (List.mem_cons_of_mem x h)

theorem fold_contrib_eq (g : Graph) (pidx : PathIndexT) (aid : Nat) :
    ∀ (l : List (Nat × Nat)) (a : Nat),
      l.foldl (fun acc e =>
        match altContrib g pidx aid e with
        | none => acc
        | some v => max acc v) a
      = (l.filterMap (altContrib g pidx aid)).foldl max a := by
  intro l
  induction l with
  | nil => intro a; rfl
  | cons e l ih =>
    intro a
    cases h : altContrib g pidx aid e with
    | none => simp [List.filterMap_cons, h, ih]
    | some v => simp [List.filterMap_cons, h, ih]

/-- Claim C6: determination of `first_ref_base`.  (a) When the ref-allele
path exists and is non-empty, it is the reference start of that path's
first node.  (b) When only the alt path is available, it is the maximum
qualifying edge contribution (reference start plus length of a distinct
on-path neighbour on the correct side), 0 when there is none.  (c) It is
undefined exactly when both paths are missing or empty, and (d) in that
case the phase is skipped with a diagnostic and no other state change. -/
theorem claim_C6_first_ref_base (g : Graph) (pidx : PathIndexT) :
    (∀ (m : GNode) (rest : List GNode) (altP : Option (List GNode)) (st : Nat),
      pidx.byId m.id = some st →
      compute_first_ref_base g pidx (some (m :: rest)) altP = some st)
    ∧ (∀ (refP : Option (List GNode)) (a : GNode) (as' : List GNode),
        (refP = none ∨ refP = some []) →
        ∃ v, compute_first_ref_base g pidx refP (some (a :: as')) = some v
          ∧ (∀ c ∈ (if a.rev then g.edgesOnEnd a.id else g.edgesOnStart a.id).filterMap
              (altContrib g pidx a.id), c ≤ v)
          ∧ (v = 0 ∨ v ∈ (if a.rev then g.edgesOnEnd a.id else g.edgesOnStart a.id).filterMap
              (altContrib g pidx a.id)))
    ∧ (∀ (refP altP : Option (List GNode)),
        compute_first_ref_base g pidx refP altP = none ↔
          ((refP = none ∨ refP = some []) ∧ (altP = none ∨ altP = some [])))
    ∧ (∀ (ctx : Ctx) (s : BState) (sampleNumber po : Nat) (varName : String) (altIdx : Int),
        compute_first_ref_base ctx.graph ctx.pathIndex
          (ctx.altPaths ("_alt_" ++ varName ++ "_0"))
          (ctx.altPaths ("_alt_" ++ varName ++ "_" ++ toString altIdx)) = none →
        handle_alt_allele ctx s sampleNumber po varName altIdx
          = { s with warnings := s.warnings ++ [warnMissingAlt varName] }) := by
  refine ⟨?_, ?_, ?_, ?_⟩
  · intro m rest altP st h
    unfold compute_first_ref_base
    dsimp only
    rw [h]
    rfl
  · intro refP a as' h
    have hred : compute_first_ref_base g pidx refP (some (a :: as'))
        = some ((if a.rev then g.edgesOnEnd a.id else g.edgesOnStart a.id).foldl
          (fun acc e =>
            match altContrib g pidx a.id e with
            | none => acc
            | some v => max acc v) 0) := by
      rcases h with h | h <;> subst h <;> rfl
    refine ⟨_, hred, ?_, ?_⟩
    · intro c hc
      rw [fold_contrib_eq]
      exact foldl_max_le_of_mem _ 0 c hc
    · rw [fold_contrib_eq]
      exact foldl_max_cases _ 0
  · intro refP altP
    rcases refP with _ | (_ | ⟨m, rest⟩)
    · rcases altP with _ | (_ | ⟨a, as'⟩) <;> simp [compute_first_ref_base]
    · rcases altP with _ | (_ | ⟨a, as'⟩) <;> simp [compute_first_ref_base]
    · simp [compute_first_ref_base]
  · intro ctx s sampleNumber po varName altIdx h
    unfold handle_alt_allele
    dsimp only
    rw [h]

theorem claim_C6_witness :
    (compute_first_ref_base fxGraph fxPidx (some [⟨2, false⟩]) none = some 5)
    ∧ (∃ v, compute_first_ref_base fxGraph fxPidx none (some [⟨7, false⟩]) = some v
        ∧ (∀ c ∈ (if (false : Bool) then fxGraph.edgesOnEnd 7 else fxGraph.edgesOnStart 7).filterMap
            (altContrib fxGraph fxPidx 7), c ≤ v)
        ∧ (v = 0 ∨ v ∈ (if (false : Bool) then fxGraph.edgesOnEnd 7 else fxGraph.edgesOnStart 7).filterMap
            (altContrib fxGraph fxPidx 7)))
    ∧ (compute_first_ref_base fxGraph fxPidx none none = none ↔
        (((none : Option (List GNode)) = none ∨ (none : Option (List GNode)) = some []) ∧
         ((none : Option (List GNode)) = none ∨ (none : Option (List GNode)) = some [])))
    ∧ (handle_alt_allele fxCtx fxState 0 0 "zz" 1
        = { fxState with warnings := fxState.warnings ++ [warnMissingAlt "zz"] }) :=
  ⟨(claim_C6_first_ref_base fxGraph fxPidx).1 ⟨2, false⟩ [] none 5 (by decide),
   (claim_C6_first_ref_base fxGraph fxPidx).2.1 none ⟨7, false⟩ [] (Or.inl rfl),
   (claim_C6_first_ref_base fxGraph fxPidx).2.2.1 none none,
   (claim_C6_first_ref_base fxGraph fxPidx).2.2.2 fxCtx fxState 0 0 "zz" 1 (by decide)⟩

/-! ## Claim C9 -/

/-- Claim C9: a batch whose variant scan yields zero processed variants
emits nothing to the sink for any sample of the batch on that contig; in
particular the batch-end finishing block (which would otherwise emit one
all-reference thread per phase) is skipped. -/
theorem claim_C9_zero_variants (ctx : Ctx) : (process_batch ctx []).emitted = [] := rfl

/-! ## Claim C10 -/

/-- A reference-only variant record (genotype `0|0` for every sample). -/
def fxVarRef : VariantT := ⟨"w1", 2, fun _ => ['0', '|', '0']⟩

/-- Claim C10 counterexample: not every negative batch-size argument
makes the program fail.  `stoul` negates into `size_t`, so the argument
`-(2^64 - 1)` wraps to a batch size of 1; the pre-loop check passes, the
per-batch vectors (2 phases, 1 sample) allocate trivially, and the run
completes and emits fragments -- contradicting both "fails fatally" and
"no fragment is emitted" of the claim as stated. -/
theorem claim_C10_counterexample :
    stoulModel (-(2 ^ 64 - 1)) = 1
    ∧ run_index_main "x" (-(2 ^ 64 - 1)) (2 ^ 40) fxCtx [fxVarRef] 1
      = .ok [⟨0, "_thread_S_C_0_0", [⟨1, false⟩, ⟨2, false⟩]⟩,
             ⟨1, "_thread_S_C_1_0", [⟨1, false⟩, ⟨2, false⟩]⟩] := by
  constructor
  · rfl
  · rfl

/-- Claim C10 amended: with a VCF given, a batch-size argument of zero is
rejected by the explicit pre-loop check, fatally and before any variant
processing, with no fragment emitted.  A negative argument is *not*
rejected by that check: it wraps into the 64-bit `size_t`; when the
wrapped batch size, or the phases-per-batch count derived from it, still
exceeds the allocator's capacity (as for `-1`, which wraps to
`2^64 - 1`), the program does still fail fatally before any variant
processing -- but through the per-batch vector allocations throwing, not
through the check -- while a negative argument wrapping to a small
positive batch size (such as `-(2^64 - 1)`, which wraps to 1) passes
every check and the run proceeds and emits fragments. -/
theorem claim_C10_amended :
    (∀ (vcfName : String) (maxAlloc : Nat) (env : Ctx) (vars : List VariantT)
        (numSamples : Nat), vcfName ≠ "" →
      run_index_main vcfName 0 maxAlloc env vars numSamples
        = .error "error:[vg index] Batch size must be positive and nonzero")
    ∧ (∀ (vcfName : String) (batchArg : Int) (maxAlloc : Nat) (env : Ctx)
        (vars : List VariantT) (numSamples : Nat), vcfName ≠ "" →
      1 ≤ stoulModel batchArg →
      (maxAlloc < 2 * stoulModel batchArg % 2 ^ 64 ∨ maxAlloc < stoulModel batchArg) →
      run_index_main vcfName batchArg maxAlloc env vars numSamples
        = .error "terminate: std::length_error in per-batch vector allocation") := by
  constructor
  · intro vcfName maxAlloc env vars numSamples hv
    unfold run_index_main
    dsimp only
    rw [if_neg hv]
    rfl
  · intro vcfName batchArg maxAlloc env vars numSamples hv h1 h2
    unfold run_index_main
    dsimp only
    rw [if_neg hv, if_neg (Nat.not_lt.mpr h1), if_pos h2]

theorem claim_C10_witness :
    run_index_main "x" 0 (2 ^ 40) fxCtx [fxVarRef] 1
      = .error "error:[vg index] Batch size must be positive and nonzero"
    ∧ run_index_main "x" (-1) (2 ^ 40) fxCtx [fxVarRef] 1
      = .error "terminate: std::length_error in per-batch vector allocation" :=
  ⟨claim_C10_amended.1 "x" (2 ^ 40) fxCtx [fxVarRef] 1 (by decide),
   claim_C10_amended.2 "x" (-1) (2 ^ 40) fxCtx [fxVarRef] 1 (by decide) (by decide)
     (by decide)⟩

/-! ## Claim C3 -/

/-- Context for the naming scenario: every edge exists (so no split ever
happens and `saved_phase_paths` counts only deliberate closes), alt paths
for three variants. -/
def fxCtx3 : Ctx :=
  { fxCtx with
    graph := { fxGraph with hasEdge := fun _ _ => true },
    altPaths := fun nm =>
      if nm = "_alt_v1_0" then some [⟨2, false⟩]
      else if nm = "_alt_v1_1" then some [⟨7, false⟩]
      else if nm = "_alt_v2_0" then some [⟨2, false⟩]
      else if nm = "_alt_v2_1" then some [⟨8, false⟩]
      else if nm = "_alt_v3_0" then some [⟨2, false⟩]
      else if nm = "_alt_v3_1" then some [⟨9, false⟩]
      else none }

def fxV1 : VariantT := ⟨"v1", 2, fun _ => ['1', '|', '1']⟩

def fxV2 : VariantT := ⟨"v2", 6, fun _ => ['1']⟩

def fxV3 : VariantT := ⟨"v3", 8, fun _ => ['1', '|', '1']⟩

/-- Claim C3 (code bug): fragment names are *not* pairwise distinct per
(sample, contig, phase-slot).  The ploidy-transition emission site (line
783) reads `saved_phase_paths[sample_number*2 - first_phase]` -- phase
0's counter -- for both phase offsets, unlike the other two emission
sites, which use the emitting phase's own counter.  In this run (diploid
at variant 1, haploid at variant 2, diploid again at variant 3, then
batch end) the name `_thread_S_C_1_1` is emitted twice for slot 1. -/
theorem claim_C3_duplicate_names :
    ((process_batch fxCtx3 [fxV1, fxV2, fxV3]).emitted.map Emit.name
      = ["_thread_S_C_0_0", "_thread_S_C_1_1", "_thread_S_C_0_1",
         "_thread_S_C_0_2", "_thread_S_C_1_1"])
    ∧ ¬ ((process_batch fxCtx3 [fxV1, fxV2, fxV3]).emitted.map Emit.name).Nodup := by
  constructor
  · rfl
  · decide

/-! ## State-algebra lemmas -/

theorem updFn_id {α : Type} (f : Nat → α) (i : Nat) : updFn f i (f i) = f := by
  funext j
  by_cases h : j = i <;> simp [updFn, h]

theorem setThread_nv (s : BState) (i : Nat) (v : List GNode) :
    (setThread s i v).nvStarts = s.nvStarts := rfl

theorem setThread_saved (s : BState) (i : Nat) (v : List GNode) :
    (setThread s i v).saved = s.saved := rfl

theorem setThread_emitted (s : BState) (i : Nat) (v : List GNode) :
    (setThread s i v).emitted = s.emitted := rfl

theorem setThread_active (s : BState) (i : Nat) (v : List GNode) :
    (setThread s i v).activePhases = s.activePhases := rfl

theorem setThread_diploid (s : BState) (i : Nat) (v : List GNode) :
    (setThread s i v).diploidRegion = s.diploidRegion := rfl

theorem setThread_warnings (s : BState) (i : Nat) (v : List GNode) :
    (setThread s i v).warnings = s.warnings := rfl

theorem setNv_threads (s : BState) (i v : Nat) : (setNv s i v).threads = s.threads := rfl

theorem setNv_saved (s : BState) (i v : Nat) : (setNv s i v).saved = s.saved := rfl

theorem setNv_emitted (s : BState) (i v : Nat) : (setNv s i v).emitted = s.emitted := rfl

theorem setNv_active (s : BState) (i v : Nat) :
    (setNv s i v).activePhases = s.activePhases := rfl

theorem setNv_diploid (s : BState) (i v : Nat) :
    (setNv s i v).diploidRegion = s.diploidRegion := rfl

theorem setNv_warnings (s : BState) (i v : Nat) : (setNv s i v).warnings = s.warnings := rfl

theorem setNv_nv_self (s : BState) (i v : Nat) : (setNv s i v).nvStarts i = v :=
  updFn_self s.nvStarts i v

theorem setNv_nv_other (s : BState) (i v j : Nat) (h : j ≠ i) :
    (setNv s i v).nvStarts j = s.nvStarts j :=
  updFn_other s.nvStarts i j v h

theorem setThread_setThread (s : BState) (i : Nat) (v w : List GNode) :
    setThread (setThread s i v) i w = setThread s i w := by
  unfold setThread
  dsimp only
  congr 1
  funext j
  by_cases h : j = i <;> simp [updFn, h]

theorem setThread_id (s : BState) (i : Nat) : setThread s i (s.threads i) = s := by
  unfold setThread
  rw [updFn_id]

theorem fold_nocheck_eq (ctx : Ctx) (pn : Nat) :
    ∀ (ns : List GNode) (s : BState),
      ns.foldl (fun st n => append_node_nocheck ctx st pn n) s
        = setThread s (pn - ctx.firstPhase) (s.threads (pn - ctx.firstPhase) ++ ns) := by
  intro ns
  induction ns with
  | nil =>
    intro s
    show s = _
    rw [List.append_nil, setThread_id]
  | cons n ns ih =>
    intro s
    show List.foldl _ (append_node_nocheck ctx s pn n) ns = _
    rw [ih]
    unfold append_node_nocheck
    dsimp only
    rw [setThread_setThread, setThread_threads_self, List.append_assoc]
    rfl

/-! ## Frame and trace lemmas for the append operations -/

theorem filter_other_of_tagged (em t : List Emit) (pn q : Nat) (hq : q ≠ pn)
    (ht : ∀ e ∈ t, e.phase = pn) :
    (em ++ t).filter (fun e => e.phase = q) = em.filter (fun e => e.phase = q) := by
  rw [List.filter_append]
  have hnil : t.filter (fun e => decide (e.phase = q)) = [] := by
    rw [List.filter_eq_nil_iff]
    intro e he
    rw [ht e he]
    simp [Ne.symm hq]
  rw [hnil, List.append_nil]

theorem finish_phase_trace_self (s : BState) (pn : Nat) (nm : String) (fp : Nat) :
    phase_trace fp (finish_phase s pn nm fp) pn = phase_trace fp s pn := by
  unfold finish_phase phase_trace
  dsimp only
  split
  · rw [List.filter_append]
    simp [updFn_self]
  · rfl

theorem finish_phase_trace_other (s : BState) (pn : Nat) (nm : String) (fp q : Nat)
    (hq : q ≠ pn) (hiq : q - fp ≠ pn - fp) :
    phase_trace fp (finish_phase s pn nm fp) q = phase_trace fp s q := by
  unfold finish_phase phase_trace
  dsimp only
  split
  · rw [filter_other_of_tagged _ _ pn q hq (by simp)]
    dsimp only
    rw [updFn_other _ _ _ _ hiq]
  · rfl

theorem append_node_cases (ctx : Ctx) (s : BState) (pn : Nat) (nx : GNode) :
    append_node ctx s pn nx
      = setThread s (pn - ctx.firstPhase) (s.threads (pn - ctx.firstPhase) ++ [nx])
    ∨ append_node ctx s pn nx
      = setThread
          (finish_phase s pn
            (mkThreadName (ctx.sampleName (pn / 2)) ctx.pathName (pn % 2)
              (s.saved (pn - ctx.firstPhase)))
            ctx.firstPhase)
          (pn - ctx.firstPhase) [nx] := by
  cases hL : (s.threads (pn - ctx.firstPhase)).getLast? with
  | none =>
    left
    apply append_node_no_split
    intro prev hp
    rw [hL] at hp
    cases hp
  | some prev =>
    by_cases hE : ctx.graph.hasEdge prev nx = false
    · right
      exact append_node_split ctx s pn nx prev hL hE
    · left
      apply append_node_no_split
      intro prev' hp
      rw [hL] at hp
      cases hp
      exact eq_true_of_ne_false hE

theorem append_node_nv (ctx : Ctx) (s : BState) (pn : Nat) (nx : GNode) :
    (append_node ctx s pn nx).nvStarts = s.nvStarts := by
  rcases append_node_cases ctx s pn nx with h | h <;>
    rw [h, setThread_nv]
  rw [finish_phase_nv]

theorem append_node_active (ctx : Ctx) (s : BState) (pn : Nat) (nx : GNode) :
    (append_node ctx s pn nx).activePhases = s.activePhases := by
  rcases append_node_cases ctx s pn nx with h | h <;>
    rw [h, setThread_active]
  rw [finish_phase_active]

theorem append_node_diploid (ctx : Ctx) (s : BState) (pn : Nat) (nx : GNode) :
    (append_node ctx s pn nx).diploidRegion = s.diploidRegion := by
  rcases append_node_cases ctx s pn nx with h | h <;>
    rw [h, setThread_diploid]
  rw [finish_phase_diploid]

theorem append_node_warnings (ctx : Ctx) (s : BState) (pn : Nat) (nx : GNode) :
    (append_node ctx s pn nx).warnings = s.warnings := by
  rcases append_node_cases ctx s pn nx with h | h <;>
    rw [h, setThread_warnings]
  rw [finish_phase_warnings]

theorem append_node_threads_other (ctx : Ctx) (s : BState) (pn : Nat) (nx : GNode)
    (j : Nat) (hj : j ≠ pn - ctx.firstPhase) :
    (append_node ctx s pn nx).threads j = s.threads j := by
  rcases append_node_cases ctx s pn nx with h | h <;>
    rw [h, setThread_threads_other _ _ _ _ hj]
  rw [finish_phase_threads_other _ _ _ _ _ hj]

theorem append_node_saved_other (ctx : Ctx) (s : BState) (pn : Nat) (nx : GNode)
    (j : Nat) (hj : j ≠ pn - ctx.firstPhase) :
    (append_node ctx s pn nx).saved j = s.saved j := by
  rcases append_node_cases ctx s pn nx with h | h <;>
    rw [h, setThread_saved]
  rw [finish_phase_saved_other _ _ _ _ _ hj]

theorem append_node_emitted (ctx : Ctx) (s : BState) (pn : Nat) (nx : GNode) :
    ∃ t, (append_node ctx s pn nx).emitted = s.emitted ++ t ∧ ∀ e ∈ t, e.phase = pn := by
  rcases append_node_cases ctx s pn nx with h | h <;> rw [h, setThread_emitted]
  · exact ⟨[], by simp, by simp⟩
  · exact finish_phase_emitted s pn _ ctx.firstPhase

theorem append_node_threads_last (ctx : Ctx) (s : BState) (pn : Nat) (nx : GNode) :
    ((append_node ctx s pn nx).threads (pn - ctx.firstPhase)).getLast? = some nx := by
  rcases append_node_cases ctx s pn nx with h | h <;> rw [h, setThread_threads_self]
  · exact List.getLast?_concat _
  · rfl

theorem append_node_trace_self (ctx : Ctx) (s : BState) (pn : Nat) (nx : GNode) :
    phase_trace ctx.firstPhase (append_node ctx s pn nx) pn
      = phase_trace ctx.firstPhase s pn ++ [nx] := by
  rcases append_node_cases ctx s pn nx with h | h <;> rw [h]
  · unfold phase_trace
    rw [setThread_emitted, setThread_threads_self, ← List.append_assoc]
  · unfold phase_trace
    rw [setThread_emitted, setThread_threads_self]
    have hfin := finish_phase_trace_self s pn
      (mkThreadName (ctx.sampleName (pn / 2)) ctx.pathName (pn % 2)
        (s.saved (pn - ctx.firstPhase))) ctx.firstPhase
    unfold phase_trace at hfin
    rw [finish_phase_threads_self, List.append_nil] at hfin
    rw [hfin]

theorem append_node_trace_other (ctx : Ctx) (s : BState) (pn : Nat) (nx : GNode)
    (q : Nat) (hq : q ≠ pn) (hiq : q - ctx.firstPhase ≠ pn - ctx.firstPhase) :
    phase_trace ctx.firstPhase (append_node ctx s pn nx) q
      = phase_trace ctx.firstPhase s q := by
  rcases append_node_cases ctx s pn nx with h | h <;> rw [h] <;> unfold phase_trace <;>
    rw [setThread_emitted, setThread_threads_other _ _ _ _ hiq]
  rw [finish_phase_threads_other _ _ _ _ _ hiq]
  have hfin := finish_phase_trace_other s pn
    (mkThreadName (ctx.sampleName (pn / 2)) ctx.pathName (pn % 2)
      (s.saved (pn - ctx.firstPhase))) ctx.firstPhase q hq hiq
  unfold phase_trace at hfin
  rw [finish_phase_threads_other _ _ _ _ _ hiq] at hfin
  exact hfin

/-! ## Lemmas about `append_reference_mappings_until` -/

theorem aru_eq (ctx : Ctx) (s : BState) (pn endPos : Nat) :
    append_reference_mappings_until ctx s pn endPos
      = (match reference_span ctx.pathIndex (s.nvStarts (pn - ctx.firstPhase)) endPos with
        | ([], fin) => setNv s (pn - ctx.firstPhase) fin
        | (n :: ns, fin) =>
          setNv (setThread (append_node ctx s pn n) (pn - ctx.firstPhase)
            ((append_node ctx s pn n).threads (pn - ctx.firstPhase) ++ ns))
            (pn - ctx.firstPhase) fin) := by
  unfold append_reference_mappings_until reference_span
  dsimp only
  cases hdrop : ctx.pathIndex.entries.drop
      (findPosition ctx.pathIndex (s.nvStarts (pn - ctx.firstPhase))) with
  | nil => rfl
  | cons e rest =>
    dsimp only
    by_cases h : s.nvStarts (pn - ctx.firstPhase) < endPos
    · rw [if_pos h, if_pos h]
      dsimp only
      rw [fold_nocheck_eq]
    · rw [if_neg h, if_neg h]

theorem aru_nv_self (ctx : Ctx) (s : BState) (pn endPos : Nat) :
    (append_reference_mappings_until ctx s pn endPos).nvStarts (pn - ctx.firstPhase)
      = (reference_span ctx.pathIndex (s.nvStarts (pn - ctx.firstPhase)) endPos).2 := by
  rw [aru_eq]
  cases hr : reference_span ctx.pathIndex (s.nvStarts (pn - ctx.firstPhase)) endPos with
  | mk ns fin =>
    cases ns <;> exact setNv_nv_self _ _ _

theorem aru_nv_other (ctx : Ctx) (s : BState) (pn endPos j : Nat)
    (hj : j ≠ pn - ctx.firstPhase) :
    (append_reference_mappings_until ctx s pn endPos).nvStarts j = s.nvStarts j := by
  rw [aru_eq]
  cases hr : reference_span ctx.pathIndex (s.nvStarts (pn - ctx.firstPhase)) endPos with
  | mk ns fin =>
    cases ns with
    | nil => exact setNv_nv_other _ _ _ _ hj
    | cons n ns =>
      rw [setNv_nv_other _ _ _ _ hj]
      show (append_node ctx s pn n).nvStarts j = _
      rw [append_node_nv]

theorem aru_threads_other (ctx : Ctx) (s : BState) (pn endPos j : Nat)
    (hj : j ≠ pn - ctx.firstPhase) :
    (append_reference_mappings_until ctx s pn endPos).threads j = s.threads j := by
  rw [aru_eq]
  cases hr : reference_span ctx.pathIndex (s.nvStarts (pn - ctx.firstPhase)) endPos with
  | mk ns fin =>
    cases ns with
    | nil => rfl
    | cons n ns =>
      show (setThread (append_node ctx s pn n) _ _).threads j = _
      rw [setThread_threads_other _ _ _ _ hj, append_node_threads_other _ _ _ _ _ hj]

theorem aru_saved_other (ctx : Ctx) (s : BState) (pn endPos j : Nat)
    (hj : j ≠ pn - ctx.firstPhase) :
    (append_reference_mappings_until ctx s pn endPos).saved j = s.saved j := by
  rw [aru_eq]
  cases hr : reference_span ctx.pathIndex (s.nvStarts (pn - ctx.firstPhase)) endPos with
  | mk ns fin =>
    cases ns with
    | nil => rfl
    | cons n ns =>
      show (append_node ctx s pn n).saved j = _
      rw [append_node_saved_other _ _ _ _ _ hj]

theorem aru_active (ctx : Ctx) (s : BState) (pn endPos : Nat) :
    (append_reference_mappings_until ctx s pn endPos).activePhases = s.activePhases := by
  rw [aru_eq]
  cases hr : reference_span ctx.pathIndex (s.nvStarts (pn - ctx.firstPhase)) endPos with
  | mk ns fin =>
    cases ns with
    | nil => rfl
    | cons n ns =>
      show (append_node ctx s pn n).activePhases = _
      rw [append_node_active]

theorem aru_diploid (ctx : Ctx) (s : BState) (pn endPos : Nat) :
    (append_reference_mappings_until ctx s pn endPos).diploidRegion = s.diploidRegion := by
  rw [aru_eq]
  cases hr : reference_span ctx.pathIndex (s.nvStarts (pn - ctx.firstPhase)) endPos with
  | mk ns fin =>
    cases ns with
    | nil => rfl
    | cons n ns =>
      show (append_node ctx s pn n).diploidRegion = _
      rw [append_node_diploid]

theorem aru_warnings (ctx : Ctx) (s : BState) (pn endPos : Nat) :
    (append_reference_mappings_until ctx s pn endPos).warnings = s.warnings := by
  rw [aru_eq]
  cases hr : reference_span ctx.pathIndex (s.nvStarts (pn - ctx.firstPhase)) endPos with
  | mk ns fin =>
    cases ns with
    | nil => rfl
    | cons n ns =>
      show (append_node ctx s pn n).warnings = _
      rw [append_node_warnings]

theorem aru_emitted (ctx : Ctx) (s : BState) (pn endPos : Nat) :
    ∃ t, (append_reference_mappings_until ctx s pn endPos).emitted = s.emitted ++ t
      ∧ ∀ e ∈ t, e.phase = pn := by
  rw [aru_eq]
  cases hr : reference_span ctx.pathIndex (s.nvStarts (pn - ctx.firstPhase)) endPos with
  | mk ns fin =>
    cases ns with
    | nil => exact ⟨[], by rw [setNv_emitted, List.append_nil], by simp⟩
    | cons n ns =>
      show ∃ t, (append_node ctx s pn n).emitted = _ ∧ _
      exact append_node_emitted ctx s pn n

theorem aru_trace_self (ctx : Ctx) (s : BState) (pn endPos : Nat) :
    phase_trace ctx.firstPhase (append_reference_mappings_until ctx s pn endPos) pn
      = phase_trace ctx.firstPhase s pn
        ++ (reference_span ctx.pathIndex (s.nvStarts (pn - ctx.firstPhase)) endPos).1 := by
  rw [aru_eq]
  cases hr : reference_span ctx.pathIndex (s.nvStarts (pn - ctx.firstPhase)) endPos with
  | mk ns fin =>
    cases ns with
    | nil => rw [List.append_nil]; rfl
    | cons n ns =>
      show phase_trace ctx.firstPhase
        (setNv (setThread (append_node ctx s pn n) _ _) _ _) pn = _
      unfold phase_trace
      rw [setNv_emitted, setNv_threads, setThread_emitted, setThread_threads_self,
        ← List.append_assoc]
      have := append_node_trace_self ctx s pn n
      unfold phase_trace at this
      rw [this]
      rw [List.append_assoc]
      rfl

theorem aru_trace_other (ctx : Ctx) (s : BState) (pn endPos q : Nat)
    (hq : q ≠ pn) (hiq : q - ctx.firstPhase ≠ pn - ctx.firstPhase) :
    phase_trace ctx.firstPhase (append_reference_mappings_until ctx s pn endPos) q
      = phase_trace ctx.firstPhase s q := by
  rw [aru_eq]
  cases hr : reference_span ctx.pathIndex (s.nvStarts (pn - ctx.firstPhase)) endPos with
  | mk ns fin =>
    cases ns with
    | nil => rfl
    | cons n ns =>
      show phase_trace ctx.firstPhase
        (setNv (setThread (append_node ctx s pn n) _ _) _ _) q = _
      unfold phase_trace
      rw [setNv_emitted, setNv_threads, setThread_emitted,
        setThread_threads_other _ _ _ _ hiq]
      have := append_node_trace_other ctx s pn n q hq hiq
      unfold phase_trace at this
      rw [append_node_threads_other _ _ _ _ _ hiq] at this
      have hem : (append_node ctx s pn n).emitted.filter (fun e => e.phase = q)
          = s.emitted.filter (fun e => e.phase = q) := by
        rcases append_node_emitted ctx s pn n with ⟨t, ht, htag⟩
        rw [ht, filter_other_of_tagged _ _ pn q hq htag]
      rw [hem, append_node_threads_other _ _ _ _ _ hiq]

/-! ## Lemmas about the alt-path blit and `handle_alt_allele` -/

theorem fold_append_trace (ctx : Ctx) (pn : Nat) :
    ∀ (l : List GNode) (s : BState),
      phase_trace ctx.firstPhase (l.foldl (fun st n => append_node ctx st pn n) s) pn
        = phase_trace ctx.firstPhase s pn ++ l := by
  intro l
  induction l with
  | nil => intro s; rw [List.append_nil]; rfl
  | cons n ns ih =>
    intro s
    show phase_trace _ (List.foldl _ (append_node ctx s pn n) ns) pn = _
    rw [ih, append_node_trace_self, List.append_assoc]
    rfl

theorem fold_append_nv (ctx : Ctx) (pn : Nat) :
    ∀ (l : List GNode) (s : BState),
      (l.foldl (fun st n => append_node ctx st pn n) s).nvStarts = s.nvStarts := by
  intro l
  induction l with
  | nil => intro s; rfl
  | cons n ns ih =>
    intro s
    show (List.foldl _ (append_node ctx s pn n) ns).nvStarts = _
    rw [ih, append_node_nv]

theorem fold_append_active (ctx : Ctx) (pn : Nat) :
    ∀ (l : List GNode) (s : BState),
      (l.foldl (fun st n => append_node ctx st pn n) s).activePhases = s.activePhases := by
  intro l
  induction l with
  | nil => intro s; rfl
  | cons n ns ih =>
    intro s
    show (List.foldl _ (append_node ctx s pn n) ns).activePhases = _
    rw [ih, append_node_active]

theorem fold_append_diploid (ctx : Ctx) (pn : Nat) :
    ∀ (l : List GNode) (s : BState),
      (l.foldl (fun st n => append_node ctx st pn n) s).diploidRegion = s.diploidRegion := by
  intro l
  induction l with
  | nil => intro s; rfl
  | cons n ns ih =>
    intro s
    show (List.foldl _ (append_node ctx s pn n) ns).diploidRegion = _
    rw [ih, append_node_diploid]

theorem fold_append_warnings (ctx : Ctx) (pn : Nat) :
    ∀ (l : List GNode) (s : BState),
      (l.foldl (fun st n => append_node ctx st pn n) s).warnings = s.warnings := by
  intro l
  induction l with
  | nil => intro s; rfl
  | cons n ns ih =>
    intro s
    show (List.foldl _ (append_node ctx s pn n) ns).warnings = _
    rw [ih, append_node_warnings]

theorem fold_append_threads_other (ctx : Ctx) (pn j : Nat) (hj : j ≠ pn - ctx.firstPhase) :
    ∀ (l : List GNode) (s : BState),
      (l.foldl (fun st n => append_node ctx st pn n) s).threads j = s.threads j := by
  intro l
  induction l with
  | nil => intro s; rfl
  | cons n ns ih =>
    intro s
    show (List.foldl _ (append_node ctx s pn n) ns).threads j = _
    rw [ih, append_node_threads_other _ _ _ _ _ hj]

theorem fold_append_saved_other (ctx : Ctx) (pn j : Nat) (hj : j ≠ pn - ctx.firstPhase) :
    ∀ (l : List GNode) (s : BState),
      (l.foldl (fun st n => append_node ctx st pn n) s).saved j = s.saved j := by
  intro l
  induction l with
  | nil => intro s; rfl
  | cons n ns ih =>
    intro s
    show (List.foldl _ (append_node ctx s pn n) ns).saved j = _
    rw [ih, append_node_saved_other _ _ _ _ _ hj]

theorem fold_append_emitted (ctx : Ctx) (pn : Nat) :
    ∀ (l : List GNode) (s : BState),
      ∃ t, (l.foldl (fun st n => append_node ctx st pn n) s).emitted = s.emitted ++ t
        ∧ ∀ e ∈ t, e.phase = pn := by
  intro l
  induction l with
  | nil => intro s; exact ⟨[], by simp, by simp⟩
  | cons n ns ih =>
    intro s
    rcases append_node_emitted ctx s pn n with ⟨t1, ht1, htag1⟩
    rcases ih (append_node ctx s pn n) with ⟨t2, ht2, htag2⟩
    refine ⟨t1 ++ t2, ?_, ?_⟩
    · show (List.foldl _ (append_node ctx s pn n) ns).emitted = _
      rw [ht2, ht1, List.append_assoc]
    · intro e he
      rcases List.mem_append.mp he with he | he
      · exact htag1 e he
      · exact htag2 e he

theorem fold_append_trace_other (ctx : Ctx) (pn q : Nat)
    (hq : q ≠ pn) (hiq : q - ctx.firstPhase ≠ pn - ctx.firstPhase) :
    ∀ (l : List GNode) (s : BState),
      phase_trace ctx.firstPhase (l.foldl (fun st n => append_node ctx st pn n) s) q
        = phase_trace ctx.firstPhase s q := by
  intro l
  induction l with
  | nil => intro s; rfl
  | cons n ns ih =>
    intro s
    show phase_trace _ (List.foldl _ (append_node ctx s pn n) ns) q = _
    rw [ih, append_node_trace_other _ _ _ _ _ hq hiq]

/-! ## Claim C5 -/

/-- Claim C5: for an active phase with a non-zero called alt whose
`first_ref_base` is determined: if the phase's cursor is at most
`first_ref_base` or overlap discarding is disabled, the phase is extended
with the reference span up to `first_ref_base`, then every visit of the
chosen alt path (empty when the path is absent), and the cursor is set to
`last_ref_base`; otherwise the phase's state (buffer, cursor, emissions)
is left entirely unchanged. -/
theorem claim_C5_overlap_rule (ctx : Ctx) (s : BState) (sampleNumber po : Nat)
    (varName : String) (altIdx : Int) (frb : Nat)
    (h : compute_first_ref_base ctx.graph ctx.pathIndex
      (ctx.altPaths ("_alt_" ++ varName ++ "_0"))
      (ctx.altPaths ("_alt_" ++ varName ++ "_" ++ toString altIdx)) = some frb) :
    ((s.nvStarts (sampleNumber * 2 + po - ctx.firstPhase) ≤ frb
        ∨ ctx.discardOverlaps = false) →
      (handle_alt_allele ctx s sampleNumber po varName altIdx).nvStarts
          (sampleNumber * 2 + po - ctx.firstPhase)
        = last_ref_base_of ctx.graph (ctx.altPaths ("_alt_" ++ varName ++ "_0")) frb
      ∧ phase_trace ctx.firstPhase (handle_alt_allele ctx s sampleNumber po varName altIdx)
          (sampleNumber * 2 + po)
        = phase_trace ctx.firstPhase s (sampleNumber * 2 + po)
          ++ (reference_span ctx.pathIndex
              (s.nvStarts (sampleNumber * 2 + po - ctx.firstPhase)) frb).1
          ++ (ctx.altPaths ("_alt_" ++ varName ++ "_" ++ toString altIdx)).getD [])
    ∧ (¬ (s.nvStarts (sampleNumber * 2 + po - ctx.firstPhase) ≤ frb
        ∨ ctx.discardOverlaps = false) →
      handle_alt_allele ctx s sampleNumber po varName altIdx = s) := by
  unfold handle_alt_allele
  dsimp only
  rw [h]
  dsimp only
  constructor
  · intro hcond
    rw [if_pos hcond]
    constructor
    · exact setNv_nv_self _ _ _
    · show phase_trace ctx.firstPhase
        (List.foldl (fun st n => append_node ctx st (sampleNumber * 2 + po) n)
          (append_reference_mappings_until ctx s (sampleNumber * 2 + po) frb)
          ((ctx.altPaths ("_alt_" ++ varName ++ "_" ++ toString altIdx)).getD []))
        (sampleNumber * 2 + po) = _
      rw [fold_append_trace, aru_trace_self]
  · intro hcond
    rw [if_neg hcond]

/-- `fxCtx` with overlap discarding enabled. -/
def fxCtxO : Ctx := { fxCtx with discardOverlaps := true }

/-- A state whose phase-0 cursor (7) is past `first_ref_base` (5). -/
def fxStateHi : BState := { initState with nvStarts := updFn initState.nvStarts 0 7 }

theorem claim_C5_witness :
    ((handle_alt_allele fxCtx initState 0 0 "v1" 1).nvStarts 0 = 10
      ∧ phase_trace fxCtx.firstPhase (handle_alt_allele fxCtx initState 0 0 "v1" 1) 0
        = [⟨1, false⟩, ⟨7, false⟩])
    ∧ handle_alt_allele fxCtxO fxStateHi 0 0 "v1" 1 = fxStateHi := by
  refine ⟨?_, ?_⟩
  · have h := (claim_C5_overlap_rule fxCtx initState 0 0 "v1" 1 5 (by decide)).1 (by decide)
    exact ⟨h.1.trans (by decide), h.2.trans (by decide)⟩
  · exact (claim_C5_overlap_rule fxCtxO fxStateHi 0 0 "v1" 1 5 (by decide)).2 (by decide)

/-! ## Lemmas about the forced-close step (claim C4) -/

theorem phase_trace_setNv (fp : Nat) (s : BState) (i v q : Nat) :
    phase_trace fp (setNv s i v) q = phase_trace fp s q := rfl

theorem cps_threads_self (ctx : Ctx) (var : VariantT) (sn : Nat) (st : BState) (po : Nat)
    (hfp : ctx.firstPhase ≤ 2 * sn) :
    (close_phase_step ctx var sn st po).threads (2 * sn - ctx.firstPhase + po) = [] := by
  unfold close_phase_step
  dsimp only
  rw [setNv_threads]
  have hidx : sn * 2 + po - ctx.firstPhase = 2 * sn - ctx.firstPhase + po := by omega
  rw [← hidx]
  exact finish_phase_threads_self _ _ _ _

theorem cps_nv_self (ctx : Ctx) (var : VariantT) (sn : Nat) (st : BState) (po : Nat) :
    (close_phase_step ctx var sn st po).nvStarts (2 * sn - ctx.firstPhase + po)
      = st.nvStarts (2 * sn - ctx.firstPhase + po) := by
  unfold close_phase_step
  dsimp only
  exact setNv_nv_self _ _ _

theorem cps_nv_other (ctx : Ctx) (var : VariantT) (sn : Nat) (st : BState) (po j : Nat)
    (hfp : ctx.firstPhase ≤ 2 * sn) (hj : j ≠ 2 * sn - ctx.firstPhase + po) :
    (close_phase_step ctx var sn st po).nvStarts j = st.nvStarts j := by
  unfold close_phase_step
  dsimp only
  rw [setNv_nv_other _ _ _ _ hj, finish_phase_nv]
  have hidx : sn * 2 + po - ctx.firstPhase = 2 * sn - ctx.firstPhase + po := by omega
  exact aru_nv_other ctx st (sn * 2 + po) var.position j (by rw [hidx]; exact hj)

theorem cps_threads_other (ctx : Ctx) (var : VariantT) (sn : Nat) (st : BState) (po j : Nat)
    (hfp : ctx.firstPhase ≤ 2 * sn) (hj : j ≠ 2 * sn - ctx.firstPhase + po) :
    (close_phase_step ctx var sn st po).threads j = st.threads j := by
  unfold close_phase_step
  dsimp only
  rw [setNv_threads]
  have hidx : sn * 2 + po - ctx.firstPhase = 2 * sn - ctx.firstPhase + po := by omega
  rw [finish_phase_threads_other _ _ _ _ _ (by rw [hidx]; exact hj)]
  exact aru_threads_other ctx st (sn * 2 + po) var.position j (by rw [hidx]; exact hj)

theorem cps_trace_self (ctx : Ctx) (var : VariantT) (sn : Nat) (st : BState) (po : Nat)
    (hfp : ctx.firstPhase ≤ 2 * sn) :
    phase_trace ctx.firstPhase (close_phase_step ctx var sn st po) (sn * 2 + po)
      = phase_trace ctx.firstPhase st (sn * 2 + po)
        ++ (reference_span ctx.pathIndex
            (st.nvStarts (2 * sn - ctx.firstPhase + po)) var.position).1 := by
  unfold close_phase_step
  dsimp only
  rw [phase_trace_setNv, finish_phase_trace_self, aru_trace_self]
  have hidx : sn * 2 + po - ctx.firstPhase = 2 * sn - ctx.firstPhase + po := by omega
  rw [hidx]

theorem cps_trace_other (ctx : Ctx) (var : VariantT) (sn : Nat) (st : BState) (po q : Nat)
    (hfp : ctx.firstPhase ≤ 2 * sn) (hq : q ≠ sn * 2 + po)
    (hiq : q - ctx.firstPhase ≠ 2 * sn - ctx.firstPhase + po) :
    phase_trace ctx.firstPhase (close_phase_step ctx var sn st po) q
      = phase_trace ctx.firstPhase st q := by
  unfold close_phase_step
  dsimp only
  have hidx : sn * 2 + po - ctx.firstPhase = 2 * sn - ctx.firstPhase + po := by omega
  rw [phase_trace_setNv, finish_phase_trace_other _ _ _ _ _ hq (by rw [hidx]; exact hiq)]
  exact aru_trace_other ctx st (sn * 2 + po) var.position q hq (by rw [hidx]; exact hiq)

theorem cps_active (ctx : Ctx) (var : VariantT) (sn : Nat) (st : BState) (po : Nat) :
    (close_phase_step ctx var sn st po).activePhases = st.activePhases := by
  unfold close_phase_step
  dsimp only
  rw [setNv_active, finish_phase_active, aru_active]

theorem cps_diploid (ctx : Ctx) (var : VariantT) (sn : Nat) (st : BState) (po : Nat) :
    (close_phase_step ctx var sn st po).diploidRegion = st.diploidRegion := by
  unfold close_phase_step
  dsimp only
  rw [setNv_diploid, finish_phase_diploid, aru_diploid]

theorem cap_fold_spec (ctx : Ctx) (var : VariantT) (sn : Nat)
    (hfp : ctx.firstPhase ≤ 2 * sn) (n : Nat) (s : BState) :
    (∀ po, po < n →
      ((List.range n).foldl (close_phase_step ctx var sn) s).threads
          (2 * sn - ctx.firstPhase + po) = []
      ∧ ((List.range n).foldl (close_phase_step ctx var sn) s).nvStarts
          (2 * sn - ctx.firstPhase + po) = s.nvStarts (2 * sn - ctx.firstPhase + po)
      ∧ phase_trace ctx.firstPhase ((List.range n).foldl (close_phase_step ctx var sn) s)
          (sn * 2 + po)
        = phase_trace ctx.firstPhase s (sn * 2 + po)
          ++ (reference_span ctx.pathIndex
              (s.nvStarts (2 * sn - ctx.firstPhase + po)) var.position).1)
    ∧ (∀ j, (∀ po, po < n → j ≠ 2 * sn - ctx.firstPhase + po) →
        ((List.range n).foldl (close_phase_step ctx var sn) s).threads j = s.threads j
        ∧ ((List.range n).foldl (close_phase_step ctx var sn) s).nvStarts j = s.nvStarts j)
    ∧ (∀ q, (∀ po, po < n → q ≠ sn * 2 + po) →
        (∀ po, po < n → q - ctx.firstPhase ≠ 2 * sn - ctx.firstPhase + po) →
        phase_trace ctx.firstPhase ((List.range n).foldl (close_phase_step ctx var sn) s) q
          = phase_trace ctx.firstPhase s q)
    ∧ ((List.range n).foldl (close_phase_step ctx var sn) s).activePhases = s.activePhases
    ∧ ((List.range n).foldl (close_phase_step ctx var sn) s).diploidRegion
        = s.diploidRegion := by
  induction n with
  | zero =>
    refine ⟨?_, ?_, ?_, rfl, rfl⟩
    · intro po hpo
      exact absurd hpo (Nat.not_lt_zero po)
    · intro j _
      exact ⟨rfl, rfl⟩
    · intro q _ _
      rfl
  | succ n ih =>
    simp only [List.range_succ, List.foldl_append, List.foldl_cons, List.foldl_nil]
    rcases ih with ⟨ih1, ih2, ih3, ih4, ih5⟩
    have hGnv : ∀ po, ((List.range n).foldl (close_phase_step ctx var sn) s).nvStarts
        (2 * sn - ctx.firstPhase + po) = s.nvStarts (2 * sn - ctx.firstPhase + po) := by
      intro po
      by_cases hpo : po < n
      · exact (ih1 po hpo).2.1
      · exact (ih2 (2 * sn - ctx.firstPhase + po)
          (fun po' hpo' => by
            intro h
            have : po = po' := Nat.add_left_cancel h
            omega)).2
    refine ⟨?_, ?_, ?_, ?_, ?_⟩
    · intro po hpo
      rcases Nat.lt_succ_iff_lt_or_eq.mp hpo with hlt | heq
      · have hne : 2 * sn - ctx.firstPhase + po ≠ 2 * sn - ctx.firstPhase + n := by
          intro h
          have : po = n := Nat.add_left_cancel h
          omega
        refine ⟨?_, ?_, ?_⟩
        · rw [cps_threads_other ctx var sn _ n _ hfp hne]
          exact (ih1 po hlt).1
        · rw [cps_nv_other ctx var sn _ n _ hfp hne]
          exact (ih1 po hlt).2.1
        · rw [cps_trace_other ctx var sn _ n (sn * 2 + po) hfp
            (by omega) (by rw [show sn * 2 + po - ctx.firstPhase
              = 2 * sn - ctx.firstPhase + po from by omega]; exact hne)]
          exact (ih1 po hlt).2.2
      · subst heq
        refine ⟨cps_threads_self ctx var sn _ po hfp, ?_, ?_⟩
        · rw [cps_nv_self ctx var sn _ po]
          exact hGnv po
        · rw [cps_trace_self ctx var sn _ po hfp, hGnv po]
          rw [ih3 (sn * 2 + po) (fun po' hpo' => by omega)
            (fun po' hpo' => by
              rw [show sn * 2 + po - ctx.firstPhase
                = 2 * sn - ctx.firstPhase + po from by omega]
              intro h
              have : po = po' := Nat.add_left_cancel h
              omega)]
    · intro j hj
      have hjn : j ≠ 2 * sn - ctx.firstPhase + n := hj n (Nat.lt_succ_self n)
      have hj' : ∀ po, po < n → j ≠ 2 * sn - ctx.firstPhase + po := by
        intro po hpo
        exact hj po (Nat.lt_succ_of_lt hpo)
      constructor
      · rw [cps_threads_other ctx var sn _ n _ hfp hjn]
        exact (ih2 j hj').1
      · rw [cps_nv_other ctx var sn _ n _ hfp hjn]
        exact (ih2 j hj').2
    · intro q hq hiq
      have hqn : q ≠ sn * 2 + n := hq n (Nat.lt_succ_self n)
      have hiqn : q - ctx.firstPhase ≠ 2 * sn - ctx.firstPhase + n :=
        hiq n (Nat.lt_succ_self n)
      rw [cps_trace_other ctx var sn _ n q hfp hqn hiqn]
      exact ih3 q (fun po hpo => hq po (Nat.lt_succ_of_lt hpo))
        (fun po hpo => hiq po (Nat.lt_succ_of_lt hpo))
    · rw [cps_active]
      exact ih4
    · rw [cps_diploid]
      exact ih5

/-! ## Claim C4 -/

/-- Claim C4: on a forced close (ploidy-classification change or
deactivation; `process_sample` invokes `close_active_phases` exactly
under that condition), every active phase of the sample is extended with
the reference span up to the variant's start coordinate and closed (its
buffer is empty afterwards, and its whole appended content grew by
exactly that reference span), after which the phase's nonvariant cursor
equals its value from before the extension (rolled back); and when the
ploidy classification changed, both of the sample's phase cursors are
then set to the maximum of the two (rolled-back) cursors. -/
theorem claim_C4_forced_close (ctx : Ctx) (var : VariantT) (s : BState)
    (sampleNumber : Nat) (isDip : Bool) (hfp : ctx.firstPhase ≤ 2 * sampleNumber) :
    (∀ po, po < s.activePhases (sampleNumber - ctx.batchStart) →
      (close_active_phases ctx var s sampleNumber isDip).threads
        (2 * sampleNumber - ctx.firstPhase + po) = [])
    ∧ (∀ po, po < s.activePhases (sampleNumber - ctx.batchStart) →
      phase_trace ctx.firstPhase (close_active_phases ctx var s sampleNumber isDip)
          (sampleNumber * 2 + po)
        = phase_trace ctx.firstPhase s (sampleNumber * 2 + po)
          ++ (reference_span ctx.pathIndex
              (s.nvStarts (2 * sampleNumber - ctx.firstPhase + po)) var.position).1)
    ∧ (if isDip ≠ s.diploidRegion (sampleNumber - ctx.batchStart) then
        (close_active_phases ctx var s sampleNumber isDip).nvStarts
            (2 * sampleNumber - ctx.firstPhase)
          = max (s.nvStarts (2 * sampleNumber - ctx.firstPhase))
              (s.nvStarts (2 * sampleNumber - ctx.firstPhase + 1))
        ∧ (close_active_phases ctx var s sampleNumber isDip).nvStarts
            (2 * sampleNumber - ctx.firstPhase + 1)
          = max (s.nvStarts (2 * sampleNumber - ctx.firstPhase))
              (s.nvStarts (2 * sampleNumber - ctx.firstPhase + 1))
      else ∀ po, (close_active_phases ctx var s sampleNumber isDip).nvStarts
          (2 * sampleNumber - ctx.firstPhase + po)
        = s.nvStarts (2 * sampleNumber - ctx.firstPhase + po)) := by
  have hspec := cap_fold_spec ctx var sampleNumber hfp
    (s.activePhases (sampleNumber - ctx.batchStart)) s
  rcases hspec with ⟨h1, h2, h3, h4, h5⟩
  have hGnv : ∀ po, ((List.range (s.activePhases (sampleNumber - ctx.batchStart))).foldl
      (close_phase_step ctx var sampleNumber) s).nvStarts
      (2 * sampleNumber - ctx.firstPhase + po)
      = s.nvStarts (2 * sampleNumber - ctx.firstPhase + po) := by
    intro po
    by_cases hpo : po < s.activePhases (sampleNumber - ctx.batchStart)
    · exact (h1 po hpo).2.1
    · exact (h2 (2 * sampleNumber - ctx.firstPhase + po)
        (fun po' hpo' => by
          intro h
          have : po = po' := Nat.add_left_cancel h
          omega)).2
  unfold close_active_phases
  dsimp only
  rw [h5]
  by_cases hd : isDip ≠ s.diploidRegion (sampleNumber - ctx.batchStart)
  · rw [if_pos hd, if_pos hd]
    refine ⟨?_, ?_, ?_, ?_⟩
    · intro po hpo
      show (setNv (setNv _ _ _) _ _).threads _ = []
      rw [setNv_threads, setNv_threads]
      exact (h1 po hpo).1
    · intro po hpo
      rw [phase_trace_setNv, phase_trace_setNv]
      exact (h1 po hpo).2.2
    · have h0 : (2 : Nat) * sampleNumber - ctx.firstPhase
          = 2 * sampleNumber - ctx.firstPhase + 0 := by omega
      rw [setNv_nv_other _ _ _ _ (by omega), setNv_nv_self, hGnv 1]
      rw [h0, hGnv 0]
    · rw [setNv_nv_self, hGnv 1]
      have h0 : (2 : Nat) * sampleNumber - ctx.firstPhase
          = 2 * sampleNumber - ctx.firstPhase + 0 := by omega
      rw [h0, hGnv 0]
  · rw [if_neg hd, if_neg hd]
    refine ⟨?_, ?_, ?_⟩
    · intro po hpo
      exact (h1 po hpo).1
    · intro po hpo
      exact (h1 po hpo).2.2
    · intro po
      exact hGnv po

theorem claim_C4_witness :
    (∀ po, po < (handle_variant fxCtx3 fxV1 initState).activePhases (0 - fxCtx3.batchStart) →
      (close_active_phases fxCtx3 fxV2 (handle_variant fxCtx3 fxV1 initState) 0 false).threads
        (2 * 0 - fxCtx3.firstPhase + po) = [])
    ∧ (∀ po, po < (handle_variant fxCtx3 fxV1 initState).activePhases (0 - fxCtx3.batchStart) →
      phase_trace fxCtx3.firstPhase
          (close_active_phases fxCtx3 fxV2 (handle_variant fxCtx3 fxV1 initState) 0 false)
          (0 * 2 + po)
        = phase_trace fxCtx3.firstPhase (handle_variant fxCtx3 fxV1 initState) (0 * 2 + po)
          ++ (reference_span fxCtx3.pathIndex
              ((handle_variant fxCtx3 fxV1 initState).nvStarts
                (2 * 0 - fxCtx3.firstPhase + po)) fxV2.position).1)
    ∧ (if (false : Bool) ≠ (handle_variant fxCtx3 fxV1 initState).diploidRegion
          (0 - fxCtx3.batchStart) then
        (close_active_phases fxCtx3 fxV2 (handle_variant fxCtx3 fxV1 initState) 0
            false).nvStarts (2 * 0 - fxCtx3.firstPhase)
          = max ((handle_variant fxCtx3 fxV1 initState).nvStarts (2 * 0 - fxCtx3.firstPhase))
              ((handle_variant fxCtx3 fxV1 initState).nvStarts
                (2 * 0 - fxCtx3.firstPhase + 1))
        ∧ (close_active_phases fxCtx3 fxV2 (handle_variant fxCtx3 fxV1 initState) 0
            false).nvStarts (2 * 0 - fxCtx3.firstPhase + 1)
          = max ((handle_variant fxCtx3 fxV1 initState).nvStarts (2 * 0 - fxCtx3.firstPhase))
              ((handle_variant fxCtx3 fxV1 initState).nvStarts
                (2 * 0 - fxCtx3.firstPhase + 1))
      else ∀ po, (close_active_phases fxCtx3 fxV2 (handle_variant fxCtx3 fxV1 initState) 0
            false).nvStarts (2 * 0 - fxCtx3.firstPhase + po)
        = (handle_variant fxCtx3 fxV1 initState).nvStarts
            (2 * 0 - fxCtx3.firstPhase + po)) :=
  claim_C4_forced_close fxCtx3 fxV2 (handle_variant fxCtx3 fxV1 initState) 0 false
    (by decide)

/-! ## Frame lemmas for `handle_alt_allele` and claim C8 -/

theorem haa_threads_other (ctx : Ctx) (s : BState) (sn po : Nat) (vn : String) (ai : Int)
    (j : Nat) (hj : j ≠ sn * 2 + po - ctx.firstPhase) :
    (handle_alt_allele ctx s sn po vn ai).threads j = s.threads j := by
  unfold handle_alt_allele
  dsimp only
  cases hc : compute_first_ref_base ctx.graph ctx.pathIndex
      (ctx.altPaths ("_alt_" ++ vn ++ "_0"))
      (ctx.altPaths ("_alt_" ++ vn ++ "_" ++ toString ai)) with
  | none => rfl
  | some frb =>
    dsimp only
    split
    · rw [setNv_threads, fold_append_threads_other ctx _ j hj, aru_threads_other _ _ _ _ j hj]
    · rfl

theorem haa_nv_other (ctx : Ctx) (s : BState) (sn po : Nat) (vn : String) (ai : Int)
    (j : Nat) (hj : j ≠ sn * 2 + po - ctx.firstPhase) :
    (handle_alt_allele ctx s sn po vn ai).nvStarts j = s.nvStarts j := by
  unfold handle_alt_allele
  dsimp only
  cases hc : compute_first_ref_base ctx.graph ctx.pathIndex
      (ctx.altPaths ("_alt_" ++ vn ++ "_0"))
      (ctx.altPaths ("_alt_" ++ vn ++ "_" ++ toString ai)) with
  | none => rfl
  | some frb =>
    dsimp only
    split
    · rw [setNv_nv_other _ _ _ _ hj, fold_append_nv, aru_nv_other _ _ _ _ j hj]
    · rfl

theorem haa_emitted (ctx : Ctx) (s : BState) (sn po : Nat) (vn : String) (ai : Int) :
    ∃ t, (handle_alt_allele ctx s sn po vn ai).emitted = s.emitted ++ t
      ∧ ∀ e ∈ t, e.phase = sn * 2 + po := by
  unfold handle_alt_allele
  dsimp only
  cases hc : compute_first_ref_base ctx.graph ctx.pathIndex
      (ctx.altPaths ("_alt_" ++ vn ++ "_0"))
      (ctx.altPaths ("_alt_" ++ vn ++ "_" ++ toString ai)) with
  | none => exact ⟨[], by simp, by simp⟩
  | some frb =>
    dsimp only
    split
    · rcases aru_emitted ctx s (sn * 2 + po) frb with ⟨t1, ht1, htag1⟩
      rcases fold_append_emitted ctx (sn * 2 + po)
        ((ctx.altPaths ("_alt_" ++ vn ++ "_" ++ toString ai)).getD [])
        (append_reference_mappings_until ctx s (sn * 2 + po) frb) with ⟨t2, ht2, htag2⟩
      refine ⟨t1 ++ t2, ?_, ?_⟩
      · rw [setNv_emitted, ht2, ht1, List.append_assoc]
      · intro e he
        rcases List.mem_append.mp he with he | he
        · exact htag1 e he
        · exact htag2 e he
    · exact ⟨[], by simp, by simp⟩

theorem parse_genotype_active_le (gt : List Char) (d : Bool) :
    (parse_genotype gt d).newActive ≤ 2 := by
  unfold parse_genotype
  split
  · exact Nat.zero_le 2
  · split
    · split
      · exact Nat.le_of_lt Nat.one_lt_two
      · exact Nat.zero_le 2
    · split
      · exact Nat.le_refl 2
      · exact Nat.zero_le 2

/-- Claim C8 (amended): provided the sample's ploidy classification is
unchanged at the variant and the sample does not become inactive (so no
forced close runs), an active phase whose allele index is missing keeps
its buffer and nonvariant cursor unchanged and has no fragment emitted
for it at that variant; and after any close, `finish_phase` leaves the
phase's buffer empty, so a later fragment starts from a fresh buffer and
never resumes an emitted one. -/
theorem claim_C8_missing_skip :
    (∀ (ctx : Ctx) (var : VariantT) (s : BState) (sampleNumber po : Nat),
      ctx.firstPhase ≤ 2 * sampleNumber →
      (parse_genotype (var.genotypes sampleNumber)
          (s.diploidRegion (sampleNumber - ctx.batchStart))).isDiploid
        = s.diploidRegion (sampleNumber - ctx.batchStart) →
      ¬ ((parse_genotype (var.genotypes sampleNumber)
          (s.diploidRegion (sampleNumber - ctx.batchStart))).newActive = 0
        ∧ 0 < s.activePhases (sampleNumber - ctx.batchStart)) →
      po < (parse_genotype (var.genotypes sampleNumber)
          (s.diploidRegion (sampleNumber - ctx.batchStart))).newActive →
      (if po = 0 then
          (parse_genotype (var.genotypes sampleNumber)
            (s.diploidRegion (sampleNumber - ctx.batchStart))).alt0
        else
          (parse_genotype (var.genotypes sampleNumber)
            (s.diploidRegion (sampleNumber - ctx.batchStart))).alt1) = -1 →
      (process_sample ctx var s sampleNumber).threads
          (sampleNumber * 2 + po - ctx.firstPhase)
        = s.threads (sampleNumber * 2 + po - ctx.firstPhase)
      ∧ (process_sample ctx var s sampleNumber).nvStarts
          (sampleNumber * 2 + po - ctx.firstPhase)
        = s.nvStarts (sampleNumber * 2 + po - ctx.firstPhase)
      ∧ (process_sample ctx var s sampleNumber).emitted.filter
          (fun e => e.phase = sampleNumber * 2 + po)
        = s.emitted.filter (fun e => e.phase = sampleNumber * 2 + po))
    ∧ (∀ (s : BState) (pn : Nat) (name : String) (fp : Nat),
        (finish_phase s pn name fp).threads (pn - fp) = []) := by
  constructor
  · intro ctx var s sn po hfp hd hna hpo hmiss
    unfold process_sample
    dsimp only
    rw [if_neg (by
      intro h
      rcases h with h | h
      · exact h hd
      · exact hna h)]
    refine @foldl_pres Nat BState
      (fun st => st.threads (sn * 2 + po - ctx.firstPhase)
          = s.threads (sn * 2 + po - ctx.firstPhase)
        ∧ st.nvStarts (sn * 2 + po - ctx.firstPhase)
          = s.nvStarts (sn * 2 + po - ctx.firstPhase)
        ∧ st.emitted.filter (fun e => e.phase = sn * 2 + po)
          = s.emitted.filter (fun e => e.phase = sn * 2 + po))
      (phase_alt_step ctx var sn
        (parse_genotype (var.genotypes sn) (s.diploidRegion (sn - ctx.batchStart))))
      (List.range (parse_genotype (var.genotypes sn)
        (s.diploidRegion (sn - ctx.batchStart))).newActive)
      (setDiploid
        (setActive s (sn - ctx.batchStart)
          (parse_genotype (var.genotypes sn)
            (s.diploidRegion (sn - ctx.batchStart))).newActive)
        (sn - ctx.batchStart)
        (parse_genotype (var.genotypes sn)
          (s.diploidRegion (sn - ctx.batchStart))).isDiploid)
      ⟨rfl, rfl, rfl⟩ ?_
    intro st a hmem hP
    unfold phase_alt_step
    dsimp only
    by_cases heq : a = po
    · subst heq
      rw [if_pos hmiss]
      exact hP
    · by_cases hai : (if a = 0 then
          (parse_genotype (var.genotypes sn)
            (s.diploidRegion (sn - ctx.batchStart))).alt0
        else
          (parse_genotype (var.genotypes sn)
            (s.diploidRegion (sn - ctx.batchStart))).alt1) = -1
      · rw [if_pos hai]
        exact hP
      · rw [if_neg hai]
        by_cases hai0 : (if a = 0 then
            (parse_genotype (var.genotypes sn)
              (s.diploidRegion (sn - ctx.batchStart))).alt0
          else
            (parse_genotype (var.genotypes sn)
              (s.diploidRegion (sn - ctx.batchStart))).alt1) ≠ 0
        · rw [if_pos hai0]
          have hidx : sn * 2 + po - ctx.firstPhase ≠ sn * 2 + a - ctx.firstPhase := by
            omega
          refine ⟨?_, ?_, ?_⟩
          · rw [haa_threads_other _ _ _ _ _ _ _ hidx]
            exact hP.1
          · rw [haa_nv_other _ _ _ _ _ _ _ hidx]
            exact hP.2.1
          · rcases haa_emitted ctx st sn a var.varName _ with ⟨t, ht, htag⟩
            rw [ht, filter_other_of_tagged _ _ (sn * 2 + a) (sn * 2 + po)
              (by omega) htag]
            exact hP.2.2
        · rw [if_neg hai0]
          exact hP
  · intro s pn name fp
    exact finish_phase_threads_self s pn name fp

/-- A variant whose every genotype is the bare missing call `"."`. -/
def fxVarDot : VariantT := ⟨"w2", 5, fun _ => ['.']⟩

/-- A variant whose every genotype is the diploid missing call `".|."`. -/
def fxVarDD : VariantT := ⟨"w3", 5, fun _ => ['.', '|', '.']⟩

/-- Claim C8 counterexample: after a diploid variant (`0|0`), a bare
missing call `"."` classifies as haploid -- a ploidy transition -- so the
forced close runs and *does* emit a fragment for phase 0 at that variant,
even though phase 0 is active with a missing allele index there.  This
contradicts the claim's "processing that variant ... emits no fragment
for that phase at that site" as stated. -/
theorem claim_C8_counterexample :
    ((parse_genotype (fxVarDot.genotypes 0)
        ((handle_variant fxCtx fxVarRef initState).diploidRegion 0)).newActive = 1
      ∧ (parse_genotype (fxVarDot.genotypes 0)
        ((handle_variant fxCtx fxVarRef initState).diploidRegion 0)).alt0 = -1)
    ∧ (handle_variant fxCtx fxVarDot
          (handle_variant fxCtx fxVarRef initState)).emitted.filter
        (fun e => e.phase = 0)
      ≠ (handle_variant fxCtx fxVarRef initState).emitted.filter
        (fun e => e.phase = 0) := by
  constructor
  · constructor
    · decide
    · decide
  · decide

theorem claim_C8_witness :
    ((process_sample fxCtx fxVarDD initState 0).threads (0 * 2 + 0 - fxCtx.firstPhase)
        = initState.threads (0 * 2 + 0 - fxCtx.firstPhase)
      ∧ (process_sample fxCtx fxVarDD initState 0).nvStarts (0 * 2 + 0 - fxCtx.firstPhase)
        = initState.nvStarts (0 * 2 + 0 - fxCtx.firstPhase)
      ∧ (process_sample fxCtx fxVarDD initState 0).emitted.filter
          (fun e => e.phase = 0 * 2 + 0)
        = initState.emitted.filter (fun e => e.phase = 0 * 2 + 0))
    ∧ (finish_phase fxState 0 "x" 0).threads (0 - 0) = [] :=
  ⟨claim_C8_missing_skip.1 fxCtx fxVarDD initState 0 0 (by decide) (by decide)
      (by decide) (by decide) (by decide),
   claim_C8_missing_skip.2 fxState 0 "x" 0⟩

/-! ## The connectivity invariant (claim C1) -/

/-- Invariant: every emitted fragment and every active buffer is a
connected walk. -/
def WalkInv (g : Graph) (s : BState) : Prop :=
  (∀ e ∈ s.emitted, Chained g e.thread) ∧ (∀ j, Chained g (s.threads j))

theorem chained_nil (g : Graph) : Chained g [] := List.chain'_nil

theorem chained_singleton (g : Graph) (n : GNode) : Chained g [n] :=
  List.chain'_singleton n

theorem chained_concat (g : Graph) (l : List GNode) (nx : GNode)
    (h : Chained g l) (h2 : ∀ x, l.getLast? = some x → g.hasEdge x nx = true) :
    Chained g (l ++ [nx]) := by
  rw [Chained, List.chain'_append]
  refine ⟨h, chained_singleton g nx, ?_⟩
  intro x hx y hy
  simp only [List.head?_cons, Option.mem_def, Option.some_inj] at hy
  subst hy
  exact h2 x hx

theorem setNv_inv (g : Graph) (s : BState) (i v : Nat) (h : WalkInv g s) :
    WalkInv g (setNv s i v) := h

theorem setThread_inv (g : Graph) (s : BState) (i : Nat) (v : List GNode)
    (h : WalkInv g s) (hv : Chained g v) : WalkInv g (setThread s i v) := by
  refine ⟨h.1, ?_⟩
  intro j
  by_cases hj : j = i
  · subst hj
    rw [setThread_threads_self]
    exact hv
  · rw [setThread_threads_other _ _ _ _ hj]
    exact h.2 j

theorem finish_phase_inv (g : Graph) (s : BState) (pn : Nat) (nm : String) (fp : Nat)
    (h : WalkInv g s) : WalkInv g (finish_phase s pn nm fp) := by
  unfold finish_phase
  dsimp only
  split
  · constructor
    · intro e he
      rcases List.mem_append.mp he with he | he
      · exact h.1 e he
      · rcases List.mem_singleton.mp he with rfl
        exact h.2 (pn - fp)
    · intro j
      by_cases hj : j = pn - fp
      · subst hj
        show Chained g (updFn s.threads (pn - fp) [] (pn - fp))
        rw [updFn_self]
        exact chained_nil g
      · show Chained g (updFn s.threads (pn - fp) [] j)
        rw [updFn_other _ _ _ _ hj]
        exact h.2 j
  · exact h

theorem append_node_inv (ctx : Ctx) (s : BState) (pn : Nat) (nx : GNode)
    (h : WalkInv ctx.graph s) : WalkInv ctx.graph (append_node ctx s pn nx) := by
  cases hL : (s.threads (pn - ctx.firstPhase)).getLast? with
  | none =>
    rw [append_node_no_split ctx s pn nx (by intro prev hp; rw [hL] at hp; cases hp)]
    have hnil : s.threads (pn - ctx.firstPhase) = [] :=
      List.getLast?_eq_none_iff.mp hL
    apply setThread_inv _ _ _ _ h
    rw [hnil]
    exact chained_singleton _ nx
  | some prev =>
    by_cases hE : ctx.graph.hasEdge prev nx = false
    · rw [append_node_split ctx s pn nx prev hL hE]
      exact setThread_inv _ _ _ _ (finish_phase_inv _ _ _ _ _ h) (chained_singleton _ nx)
    · rw [append_node_no_split ctx s pn nx (by
        intro prev' hp
        rw [hL] at hp
        cases hp
        exact eq_true_of_ne_false hE)]
      apply setThread_inv _ _ _ _ h
      apply chained_concat _ _ _ (h.2 (pn - ctx.firstPhase))
      intro x hx
      rw [hL] at hx
      cases hx
      exact eq_true_of_ne_false hE

theorem scan_reference_take :
    ∀ (rest : List RefEntry) (endPos p : Nat),
      ∃ k, (scan_reference rest endPos p).1 = (rest.map RefEntry.node).take k := by
  intro rest
  induction rest with
  | nil => intro endPos p; exact ⟨0, rfl⟩
  | cons e rest ih =>
    intro endPos p
    unfold scan_reference
    dsimp only
    by_cases h : p < endPos
    · rw [if_pos h]
      rcases ih endPos (p + e.len) with ⟨k, hk⟩
      refine ⟨k + 1, ?_⟩
      dsimp only
      rw [hk]
      rfl
    · rw [if_neg h]
      exact ⟨0, rfl⟩

theorem chained_append_take (g : Graph) (buf : List GNode) (l : List GNode)
    (hbuf : Chained g buf)
    (hlink : ∀ x, buf.getLast? = some x → ∀ y ∈ l.head?, g.hasEdge x y = true)
    (hl : Chained g l) :
    ∀ k, Chained g (buf ++ l.take k) := by
  intro k
  rw [Chained, List.chain'_append]
  refine ⟨hbuf, hl.take k, ?_⟩
  intro x hx y hy
  apply hlink x hx
  cases k with
  | zero => cases hy
  | succ k =>
    cases l with
    | nil => cases hy
    | cons a l' =>
      simp only [List.take_succ_cons, List.head?_cons, Option.mem_def,
        Option.some_inj] at hy
      subst hy
      simp

theorem aru_inv (ctx : Ctx) (s : BState) (pn endPos : Nat)
    (hwf : WFPath ctx) (h : WalkInv ctx.graph s) :
    WalkInv ctx.graph (append_reference_mappings_until ctx s pn endPos) := by
  unfold append_reference_mappings_until
  dsimp only
  cases hdrop : ctx.pathIndex.entries.drop
      (findPosition ctx.pathIndex (s.nvStarts (pn - ctx.firstPhase))) with
  | nil => exact setNv_inv _ _ _ _ h
  | cons e rest =>
    dsimp only
    by_cases hlt : s.nvStarts (pn - ctx.firstPhase) < endPos
    · rw [if_pos hlt]
      rw [fold_nocheck_eq]
      apply setNv_inv
      have h1 := append_node_inv ctx s pn e.node h
      have hchain : List.Chain' (fun a b => ctx.graph.hasEdge a.node b.node = true)
          (e :: rest) := by
        have hd := List.Chain'.drop hwf
          (findPosition ctx.pathIndex (s.nvStarts (pn - ctx.firstPhase)))
        rw [hdrop] at hd
        exact hd
      apply setThread_inv _ _ _ _ h1
      rcases scan_reference_take rest endPos
        (s.nvStarts (pn - ctx.firstPhase) + e.len) with ⟨k, hk⟩
      rw [hk]
      refine chained_append_take ctx.graph _ _ (h1.2 (pn - ctx.firstPhase)) ?_ ?_ k
      · intro x hx y hy
        rw [append_node_threads_last] at hx
        cases hx
        cases rest with
        | nil => cases hy
        | cons r rest' =>
          simp only [List.map_cons, List.head?_cons, Option.mem_def,
            Option.some_inj] at hy
          subst hy
          exact (List.chain'_cons'.mp hchain).1 r rfl
      · exact (List.chain'_map RefEntry.node).mpr hchain.tail
    · rw [if_neg hlt]
      exact setNv_inv _ _ _ _ h

theorem haa_inv (ctx : Ctx) (s : BState) (sn po : Nat) (vn : String) (ai : Int)
    (hwf : WFPath ctx) (h : WalkInv ctx.graph s) :
    WalkInv ctx.graph (handle_alt_allele ctx s sn po vn ai) := by
  unfold handle_alt_allele
  dsimp only
  cases hc : compute_first_ref_base ctx.graph ctx.pathIndex
      (ctx.altPaths ("_alt_" ++ vn ++ "_0"))
      (ctx.altPaths ("_alt_" ++ vn ++ "_" ++ toString ai)) with
  | none => exact h
  | some frb =>
    dsimp only
    split
    · apply setNv_inv
      refine foldl_pres _ _ (aru_inv ctx s (sn * 2 + po) frb hwf h) ?_
      intro st a _ hP
      exact append_node_inv ctx st (sn * 2 + po) a hP
    · exact h

theorem cps_inv (ctx : Ctx) (var : VariantT) (sn : Nat) (st : BState) (po : Nat)
    (hwf : WFPath ctx) (h : WalkInv ctx.graph st) :
    WalkInv ctx.graph (close_phase_step ctx var sn st po) := by
  unfold close_phase_step
  dsimp only
  exact setNv_inv _ _ _ _ (finish_phase_inv _ _ _ _ _
    (aru_inv ctx st (sn * 2 + po) var.position hwf h))

theorem cap_inv (ctx : Ctx) (var : VariantT) (s : BState) (sn : Nat) (isDip : Bool)
    (hwf : WFPath ctx) (h : WalkInv ctx.graph s) :
    WalkInv ctx.graph (close_active_phases ctx var s sn isDip) := by
  unfold close_active_phases
  dsimp only
  have hfold : WalkInv ctx.graph
      ((List.range (s.activePhases (sn - ctx.batchStart))).foldl
        (close_phase_step ctx var sn) s) := by
    refine foldl_pres _ _ h ?_
    intro st a _ hP
    exact cps_inv ctx var sn st a hwf hP
  split
  · exact setNv_inv _ _ _ _ (setNv_inv _ _ _ _ hfold)
  · exact hfold

theorem pas_inv (ctx : Ctx) (var : VariantT) (sn : Nat) (g : ParsedGT)
    (st : BState) (po : Nat) (hwf : WFPath ctx) (h : WalkInv ctx.graph st) :
    WalkInv ctx.graph (phase_alt_step ctx var sn g st po) := by
  unfold phase_alt_step
  dsimp only
  have hbody : ∀ ai : Int, WalkInv ctx.graph
      (if ai = -1 then st
        else if ai ≠ 0 then handle_alt_allele ctx st sn po var.varName ai else st) := by
    intro ai
    split
    · exact h
    · split
      · exact haa_inv ctx st sn po var.varName ai hwf h
      · exact h
  exact hbody _

theorem setActive_inv (g : Graph) (s : BState) (i v : Nat) (h : WalkInv g s) :
    WalkInv g (setActive s i v) := h

theorem setDiploid_inv (g : Graph) (s : BState) (i : Nat) (v : Bool) (h : WalkInv g s) :
    WalkInv g (setDiploid s i v) := h

theorem process_sample_inv (ctx : Ctx) (var : VariantT) (s : BState) (sn : Nat)
    (hwf : WFPath ctx) (h : WalkInv ctx.graph s) :
    WalkInv ctx.graph (process_sample ctx var s sn) := by
  unfold process_sample
  dsimp only
  refine foldl_pres _ _ ?_ ?_
  · apply setDiploid_inv
    apply setActive_inv
    split
    · exact cap_inv ctx var s sn _ hwf h
    · exact h
  · intro st a _ hP
    exact pas_inv ctx var sn _ st a hwf hP

theorem handle_variant_inv (ctx : Ctx) (var : VariantT) (s : BState)
    (hwf : WFPath ctx) (h : WalkInv ctx.graph s) :
    WalkInv ctx.graph (handle_variant ctx var s) := by
  unfold handle_variant
  refine foldl_pres _ _ h ?_
  intro st a _ hP
  exact process_sample_inv ctx var st a hwf hP

theorem finish_batch_inv (ctx : Ctx) (s : BState)
    (hwf : WFPath ctx) (h : WalkInv ctx.graph s) :
    WalkInv ctx.graph (finish_batch ctx s) := by
  unfold finish_batch
  refine foldl_pres _ _ h ?_
  intro st sn _ hP
  dsimp only
  refine foldl_pres _ _ (setActive_inv _ _ _ _ hP) ?_
  intro st2 po _ hP2
  dsimp only
  exact finish_phase_inv _ _ _ _ _ (aru_inv ctx st2 (sn * 2 + po) ctx.pathLength hwf hP2)

theorem process_batch_inv (ctx : Ctx) (vars : List VariantT) (hwf : WFPath ctx) :
    WalkInv ctx.graph (process_batch ctx vars) := by
  unfold process_batch
  dsimp only
  have hinit : WalkInv ctx.graph initState := by
    constructor
    · intro e he
      cases he
    · intro j
      exact chained_nil ctx.graph
  have hfold : WalkInv ctx.graph (vars.foldl (fun st v => handle_variant ctx v st) initState) := by
    refine foldl_pres _ _ hinit ?_
    intro st v _ hP
    exact handle_variant_inv ctx v st hwf hP
  split
  · exact finish_batch_inv ctx _ hwf hfold
  · exact hfold

/-- Claim C1: for every input variant stream and every reference path
whose consecutive visits are joined by graph edges (true by construction
for a path embedded in the xg, and exactly what the source assumes when
appending pure-reference spans unchecked), every fragment handed to the
sink -- by any batch of the run, hence by any of the three sink kinds,
which all receive the same sequences -- has every pair of consecutive
node visits joined by an edge present in the graph. -/
theorem claim_C1_connected_walks :
    ∀ (env : Ctx) (vars : List VariantT) (numSamples sib fuel start : Nat),
      WFPath env →
      ∀ e ∈ run_sample_batches env vars numSamples sib fuel start,
        Chained env.graph e.thread := by
  intro env vars numSamples sib fuel
  induction fuel with
  | zero =>
    intro start _ e he
    cases he
  | succ fuel ih =>
    intro start hwf e he
    unfold run_sample_batches at he
    dsimp only at he
    by_cases h : start < numSamples
    · rw [if_pos h] at he
      rcases List.mem_append.mp he with he | he
      · exact (process_batch_inv
          { env with
            batchStart := start,
            batchLimit := min (start + sib) numSamples,
            firstPhase := 2 * start } vars hwf).1 e he
      · exact ih (min (start + sib) numSamples) hwf e he
    · rw [if_neg h] at he
      cases he

theorem claim_C1_witness :
    WFPath fxCtx3 ∧
    ∀ e ∈ run_sample_batches fxCtx3 [fxV1, fxV2, fxV3] 1 1 1 0,
      Chained fxCtx3.graph e.thread :=
  ⟨by unfold WFPath; exact List.chain'_cons.mpr ⟨rfl, List.chain'_singleton _⟩,
   claim_C1_connected_walks fxCtx3 [fxV1, fxV2, fxV3] 1 1 1 0
     (by unfold WFPath; exact List.chain'_cons.mpr ⟨rfl, List.chain'_singleton _⟩)⟩
